import Mathlib

/-!
Verification of the data-sync logic of `packet/commands.py`.

The command-line operations are embedded as pure functions over an explicit
database state `DB` (lists of ORM rows) and an explicit directory snapshot
`Ldap`.  Timestamps are minutes since an arbitrary epoch (a day has 1440
minutes); `datetime.now()` becomes an explicit `now` parameter, interactive
inputs become ordinary arguments, and the at-most-one commit per command is
reflected by returning either the updated or the untouched state.
-/

namespace PacketSpec

/-- One day in minutes; timestamps are minutes since an arbitrary epoch. -/
def minutesPerDay : Nat := 1440

/-- `packet_start_time = time(hour=19)`, as minutes past midnight. -/
def packet_start_time : Nat := 19 * 60

/-- `packet_end_time = time(hour=21)`, as minutes past midnight. -/
def packet_end_time : Nat := 21 * 60

/-- `datetime.combine(date, t)` for a date counted in whole days. -/
def combine (date : Nat) (t : Nat) : Nat := date * minutesPerDay + t

/-- The time-of-day part of a timestamp. -/
def timeOfDay (ts : Nat) : Nat := ts % minutesPerDay

/-- A `Freshman` row: username, display name, on-floor flag. -/
structure Freshman where
  rit_username : String
  name : String
  onfloor : Bool
deriving DecidableEq, Repr

/-- A `Packet` row: id, owner username, start and end timestamps. -/
structure Packet where
  id : Nat
  freshman_username : String
  start : Nat
  endTime : Nat
deriving DecidableEq, Repr

/-- An `UpperSignature` row: signed flag plus the cached role flags. -/
structure UpperSignature where
  packet_id : Nat
  member : String
  signed : Bool
  eboard : String
  active_rtp : Bool
  three_da : Bool
  webmaster : Bool
  c_m : Bool
  drink_admin : Bool
deriving DecidableEq, Repr

/-- A `FreshSignature` row. -/
structure FreshSignature where
  packet_id : Nat
  freshman_username : String
  signed : Bool
deriving DecidableEq, Repr

/-- A `MiscSignature` row (its mere existence records a signature). -/
structure MiscSignature where
  packet_id : Nat
  member : String
deriving DecidableEq, Repr

/-- The relational store: one list of rows per table. -/
structure DB where
  freshmen : List Freshman
  packets : List Packet
  upper_signatures : List UpperSignature
  fresh_signatures : List FreshSignature
  misc_signatures : List MiscSignature
deriving DecidableEq, Repr

/-- A snapshot of the directory service: the active-member list and the
role sets/predicates consumed by the commands, keyed by uid. -/
structure Ldap where
  active_members : List String
  is_intromember : String → Bool
  is_on_coop : String → Bool
  eboard_role : String → String
  rtp : List String
  three_da : List String
  webmaster : List String
  c_m : List String
  drink : List String

/-- Python's `x in l` membership test on a list of uids. -/
def memb (l : List String) (u : String) : Bool := l.any (fun x => x == u)

/-- `all_upper`: active members that are neither intro members nor on co-op
(the same filter is applied in `create_packets` and `ldap_sync`). -/
def allUpper (L : Ldap) : List String :=
  L.active_members.filter (fun u => !L.is_intromember u && !L.is_on_coop u)

/-- Modelled from the spec: `Packet.is_open` lives in `packet/models.py`
(not among the given sources); per the spec a packet is "Open while current
time < end". -/
def Packet.is_open (p : Packet) (now : Nat) : Bool := decide (now < p.endTime)

/-- Modelled from the spec: `Packet.by_id` lives in `packet/models.py`
(not among the given sources); it looks a packet up by its id. -/
def Packet.by_id (db : DB) (pid : Nat) : Option Packet :=
  db.packets.find? (fun p => p.id == pid)

/-- The operator-visible outcome messages of the admin commands. -/
inductive Msg where
  | alreadyClosedExtend
  | extended
  | alreadyClosedRemove
  | successUnsigned
  | couldNotFind
  | notOnfloor (username : String)
  | missingPacket
deriving DecidableEq, Repr

/-- Replace the first element satisfying `pred` by its image under `f`
(the effect of `query.first()` followed by a field assignment). -/
def replaceFirst (pred : α → Bool) (f : α → α) : List α → List α
  | [] => []
  | a :: as => if pred a then f a :: as else a :: replaceFirst pred f as

/-- `extend-packet`: refuses on a closed packet, otherwise sets
`end = combine(new_date, packet_end_time)` and commits. -/
def extend_packet (now : Nat) (pid : Nat) (newDate : Nat) (db : DB) : DB × Msg :=
  match Packet.by_id db pid with
  | none => (db, Msg.missingPacket)
  | some packet =>
    if !(packet.is_open now) then
      (db, Msg.alreadyClosedExtend)
    else
      ({ db with
          packets := replaceFirst (fun p => p.id == pid)
            (fun p => { p with endTime := combine newDate packet_end_time }) db.packets },
        Msg.extended)

/-- `remove_sig`: shared worker of `remove-member-sig` / `remove-freshman-sig`.
For a member it clears the signed flag of the first matching `UpperSignature`;
failing that it deletes the matching `MiscSignature` rows exactly when there is
one of them; without a commit the staged state is discarded, so the stored
state is returned unchanged on the failure paths. -/
def remove_sig (now : Nat) (pid : Nat) (username : String) (is_member : Bool) (db : DB) :
    DB × Msg :=
  match Packet.by_id db pid with
  | none => (db, Msg.missingPacket)
  | some packet =>
    if !(packet.is_open now) then
      (db, Msg.alreadyClosedRemove)
    else if is_member then
      if db.upper_signatures.any (fun s => s.packet_id == pid && s.member == username) then
        ({ db with
            upper_signatures := replaceFirst
              (fun s => s.packet_id == pid && s.member == username)
              (fun s => { s with signed := false }) db.upper_signatures },
          Msg.successUnsigned)
      else
        let delCount :=
          (db.misc_signatures.filter (fun s => s.packet_id == pid && s.member == username)).length
        if delCount == 1 then
          ({ db with
              misc_signatures := db.misc_signatures.filter
                (fun s => !(s.packet_id == pid && s.member == username)) },
            Msg.successUnsigned)
        else
          (db, Msg.couldNotFind)
    else
      if db.fresh_signatures.any (fun s => s.packet_id == pid && s.freshman_username == username) then
        ({ db with
            fresh_signatures := replaceFirst
              (fun s => s.packet_id == pid && s.freshman_username == username)
              (fun s => { s with signed := false }) db.fresh_signatures },
          Msg.successUnsigned)
      else
        (db, Msg.notOnfloor username)

/-- A raw roster row; the file has fixed columns
`[name, onfloor flag, unused, username]`. -/
structure CSVRow where
  c0 : String
  c1 : String
  c2 : String
  c3 : String
deriving DecidableEq, Repr

/-- `CSVFreshman.__init__`. -/
structure CSVFreshman where
  name : String
  rit_username : String
  onfloor : Bool
deriving DecidableEq, Repr

/-- Python's `str.strip()`: drop leading and trailing whitespace. -/
def strip (s : String) : String :=
  ⟨((s.data.dropWhile Char.isWhitespace).reverse.dropWhile Char.isWhitespace).reverse⟩

def CSVFreshman.ofRow (r : CSVRow) : CSVFreshman :=
  ⟨strip r.c0, strip r.c3, strip r.c1 == "TRUE"⟩

/-- One `d[k] = v` step of the dict comprehension in `parse_csv`: an existing
key keeps its position but takes the new value, a new key is appended. -/
def dictInsert (d : List CSVFreshman) (c : CSVFreshman) : List CSVFreshman :=
  if d.any (fun e => e.rit_username == c.rit_username) then
    d.map (fun e => if e.rit_username == c.rit_username then c else e)
  else d ++ [c]

/-- `parse_csv`: the dict keyed by `rit_username`, as an association list in
key-insertion order. -/
def parse_csv (rows : List CSVRow) : List CSVFreshman :=
  (rows.map CSVFreshman.ofRow).foldl dictInsert []

/-- The dict lookup `freshmen_in_csv[u]` (and the `in` tests against it). -/
def csvLookup (csv : List CSVFreshman) (u : String) : Option CSVFreshman :=
  csv.find? (fun c => c.rit_username == u)

/-- The per-row effect of the two reconciliation loops of `sync_freshmen` on
an existing `Freshman` row: rows named in the CSV take its name/onfloor flag,
rows absent from the CSV lose on-floor status. -/
def updateFreshman (csv : List CSVFreshman) (f : Freshman) : Freshman :=
  match csvLookup csv f.rit_username with
  | some c => { f with name := c.name, onfloor := c.onfloor }
  | none => { f with onfloor := false }

/-- The `Freshman` table after `sync_freshmen`: existing rows reconciled,
previously unknown CSV freshmen appended in CSV order. -/
def syncedFreshmen (csv : List CSVFreshman) (fs : List Freshman) : List Freshman :=
  fs.map (updateFreshman csv) ++
    (csv.filter (fun c => !fs.any (fun f => f.rit_username == c.rit_username))).map
      (fun c => ⟨c.rit_username, c.name, c.onfloor⟩)

/-- `fresh_sig.freshman.onfloor`: the on-floor flag of the `Freshman` row a
signature's foreign key resolves to (`false` when no row exists, in which
case the code could not have created the signature). -/
def onfloorIn (fs : List Freshman) (u : String) : Bool :=
  match fs.find? (fun f => f.rit_username == u) with
  | some f => f.onfloor
  | none => false

/-- One iteration of the per-packet loop of `sync_freshmen`: delete the
`FreshSignature` rows of this packet whose freshman is no longer on-floor,
then add one for every on-floor CSV freshman not yet represented and distinct
from the packet's owner.  New `FreshSignature` rows start unsigned (the
column default in `packet/models.py`, which is outside the given sources;
the spec's "recorded endorsement" semantics makes a fresh row unsigned).
`current_fresh_sigs` is taken after the deletions; the deleted rows all
belong to off-floor freshmen while every candidate for addition is on-floor
per the same updated table, so reading the session's possibly stale
pre-deletion view instead could not change which rows are added. -/
def freshStep (csv : List CSVFreshman) (fs1 : List Freshman)
    (sigs : List FreshSignature) (p : Packet) : List FreshSignature :=
  let kept := sigs.filter (fun s => !(s.packet_id == p.id && !onfloorIn fs1 s.freshman_username))
  let current := (kept.filter (fun s => s.packet_id == p.id)).map (fun s => s.freshman_username)
  let adds := (csv.filter (fun c => !current.any (fun v => v == c.rit_username) && c.onfloor
      && !(c.rit_username == p.freshman_username))).map
    (fun c => ({ packet_id := p.id, freshman_username := c.rit_username, signed := false } :
      FreshSignature))
  kept ++ adds

/-- `sync-freshmen`: upsert the `Freshman` table from the roster file and
reconcile the `FreshSignature` rows of every open-or-future packet. -/
def sync_freshmen (now : Nat) (rows : List CSVRow) (db : DB) : DB :=
  let csv := parse_csv rows
  let fs1 := syncedFreshmen csv db.freshmen
  { db with
    freshmen := fs1
    fresh_signatures :=
      (db.packets.filter (fun p => decide (now < p.endTime))).foldl (freshStep csv fs1)
        db.fresh_signatures }

/-- The effect of one `sync_freshmen` packet iteration on that packet's own
`FreshSignature` rows (the other rows are untouched): keep the rows of
still-on-floor freshmen, then add one row per on-floor CSV freshman not yet
represented and distinct from the owner. -/
def freshPacketRows (csv : List CSVFreshman) (fs1 : List Freshman) (p : Packet)
    (l : List FreshSignature) : List FreshSignature :=
  (l.filter (fun s => onfloorIn fs1 s.freshman_username)) ++
    (csv.filter (fun c =>
      !(((l.filter (fun s => onfloorIn fs1 s.freshman_username)).map
          (fun s => s.freshman_username)).any (fun v => v == c.rit_username)) &&
      c.onfloor && !(c.rit_username == p.freshman_username))).map
      (fun c => ({ packet_id := p.id
                   freshman_username := c.rit_username
                   signed := false } : FreshSignature))

/-- An `UpperSignature` as freshly constructed (`signed` explicit, role flags
at their column defaults before being assigned from directory data). -/
def blankUpper (pid : Nat) (u : String) (signed : Bool) : UpperSignature :=
  { packet_id := pid, member := u, signed := signed, eboard := "", active_rtp := false,
    three_da := false, webmaster := false, c_m := false, drink_admin := false }

/-- The six role-flag assignments repeated at each creation/refresh site:
`sig.eboard = ldap_get_eboard_role(...)`, `sig.active_rtp = member in rtp`,
and so on. -/
def setRoles (L : Ldap) (u : String) (s : UpperSignature) : UpperSignature :=
  { s with
    eboard := L.eboard_role u
    active_rtp := memb L.rtp u
    three_da := memb L.three_da u
    webmaster := memb L.webmaster u
    c_m := memb L.c_m u
    drink_admin := memb L.drink u }

/-- An `UpperSignature` as built by `create_packets` / `ldap_sync`. -/
def mkUpperSig (L : Ldap) (pid : Nat) (u : String) (signed : Bool) : UpperSignature :=
  setRoles L u (blankUpper pid u signed)

/-- `create-packets`: for each CSV freshman already known to the DB, create a
packet for the season starting on `base_date`, one `UpperSignature` per
active non-intro non-co-op member and one `FreshSignature` per other on-floor
freshman.  `confirm` is the interactive `Continue? (y/N)` answer; `nextId`
stands for the autoincrement id counter; the mail/notification side effects
touch no stored state and are omitted. -/
def create_packets (confirm : Bool) (base_date : Nat) (L : Ldap) (rows : List CSVRow)
    (nextId : Nat) (db : DB) : DB :=
  if !confirm then db else
  let start := combine base_date packet_start_time
  let endT := combine base_date packet_end_time + 14 * minutesPerDay
  let csv := parse_csv rows
  let targets := db.freshmen.filter (fun f => csv.any (fun c => c.rit_username == f.rit_username))
  let newPackets := targets.enum.map
    (fun pr => ({ id := nextId + pr.1
                  freshman_username := pr.2.rit_username
                  start := start
                  endTime := endT } : Packet))
  let newUppers := (newPackets.map (fun pkt =>
    (allUpper L).map (fun u => mkUpperSig L pkt.id u false))).flatten
  let newFresh := (newPackets.map (fun pkt =>
    (db.freshmen.filter (fun fr => fr.onfloor && !(fr.rit_username == pkt.freshman_username))).map
      (fun fr => ({ packet_id := pkt.id
                    freshman_username := fr.rit_username
                    signed := false } : FreshSignature)))).flatten
  { db with
    packets := db.packets ++ newPackets
    upper_signatures := db.upper_signatures ++ newUppers
    fresh_signatures := db.fresh_signatures ++ newFresh }

/-!
The four phases of `ldap_sync` on one open packet's signature rows, in source
order: refresh role flags of still-active signers, migrate signed
`UpperSignature` rows of inactive signers to `MiscSignature`, migrate
`MiscSignature` rows of re-activated signers back to signed `UpperSignature`
rows, then create `UpperSignature` rows for active members with no row yet.
(The `upper_sigs` set read in the final phase comes from the session's view
of `packet.upper_signatures`; rows bulk-deleted in phase 2 all have inactive
members, so whether or not they are still visible there cannot change which
active members phase 4 adds.)
-/

/-- Phase 1: refresh the cached role flags of signers still in `all_upper`. -/
def refreshedUppers (L : Ldap) (uppers : List UpperSignature) : List UpperSignature :=
  uppers.map (fun s => if memb (allUpper L) s.member then setRoles L s.member s else s)

/-- The `MiscSignature` table of the packet after phase 2: signed
`UpperSignature` rows of now-inactive signers are recreated as misc rows. -/
def miscsAfterPhase2 (L : Ldap) (p : Packet) (uppers : List UpperSignature)
    (miscs : List MiscSignature) : List MiscSignature :=
  miscs ++ ((refreshedUppers L uppers).filter
      (fun s => !memb (allUpper L) s.member && s.signed)).map
    (fun s => ({ packet_id := p.id, member := s.member } : MiscSignature))

/-- The packet's `UpperSignature` rows after all four phases. -/
def syncUppers (L : Ldap) (p : Packet) (uppers : List UpperSignature)
    (miscs : List MiscSignature) : List UpperSignature :=
  let act := allUpper L
  let uppers2 := (refreshedUppers L uppers).filter (fun s => memb act s.member)
  let reactivated := ((miscsAfterPhase2 L p uppers miscs).filter
      (fun s => memb act s.member)).map (fun s => mkUpperSig L p.id s.member true)
  let uppers3 := uppers2 ++ reactivated
  uppers3 ++ ((act.filter (fun u => !memb (uppers3.map (fun s => s.member)) u)).map
    (fun u => mkUpperSig L p.id u false))

/-- The packet's `MiscSignature` rows after all four phases. -/
def syncMiscs (L : Ldap) (p : Packet) (uppers : List UpperSignature)
    (miscs : List MiscSignature) : List MiscSignature :=
  (miscsAfterPhase2 L p uppers miscs).filter (fun s => !memb (allUpper L) s.member)

/-- One open packet's `ldap_sync` update applied inside the whole store. -/
def syncStep (L : Ldap) (db : DB) (p : Packet) : DB :=
  { db with
    upper_signatures := db.upper_signatures.filter (fun s => !(s.packet_id == p.id)) ++
      syncUppers L p (db.upper_signatures.filter (fun s => s.packet_id == p.id))
        (db.misc_signatures.filter (fun s => s.packet_id == p.id))
    misc_signatures := db.misc_signatures.filter (fun s => !(s.packet_id == p.id)) ++
      syncMiscs L p (db.upper_signatures.filter (fun s => s.packet_id == p.id))
        (db.misc_signatures.filter (fun s => s.packet_id == p.id)) }

/-- `ldap-sync`: update the upper and misc signatures of every open packet
to match the directory snapshot. -/
def ldap_sync (now : Nat) (L : Ldap) (db : DB) : DB :=
  (db.packets.filter (fun p => decide (now < p.endTime))).foldl (syncStep L) db

/-- `signatures_received()` / `signatures_required()` result shape.  The
formulas live in `packet/models.py`, outside the given sources; the report
only consumes the five count fields. -/
structure SigCounts where
  member_total : Nat
  total : Nat
  upper : Nat
  fresh : Nat
  misc : Nat
deriving DecidableEq, Repr

/-- One output row of `fetch_results` (percentages kept as exact rationals;
the two-decimal text rendering carries no further information). -/
structure ResultRow where
  member_percent : ℚ
  total_percent : ℚ
  upper_pair : Nat × Nat
  fresh_pair : Nat × Nat
  misc_pair : Nat × Nat
  missed : Int
deriving DecidableEq, Repr

/-- `a / b * 100` as evaluated by the report: a zero denominator raises
`ZeroDivisionError` (there is no guard in the source). -/
def divPct (a b : Nat) : Except Unit ℚ :=
  if b == 0 then Except.error () else Except.ok ((a : ℚ) / (b : ℚ) * 100)

/-- The row built for one matched packet in `fetch_results`: the member
percentage is computed first, then the total percentage, as in the source. -/
def packetRow (received required : SigCounts) : Except Unit ResultRow :=
  match divPct received.member_total required.member_total with
  | Except.error e => Except.error e
  | Except.ok mp =>
    match divPct received.total required.total with
    | Except.error e => Except.error e
    | Except.ok tp =>
      Except.ok { member_percent := mp
                  total_percent := tp
                  upper_pair := (received.upper, required.upper)
                  fresh_pair := (received.fresh, required.fresh)
                  misc_pair := (received.misc, required.misc)
                  missed := (required.total : Int) - (received.total : Int) }

/-- The `data` accumulation loop of `fetch_results`: rows in packet order,
aborted by the first raised exception. -/
def renderRows (sig_data : Packet → SigCounts × SigCounts) :
    List Packet → Except Unit (List ResultRow)
  | [] => Except.ok []
  | p :: ps =>
    match packetRow (sig_data p).1 (sig_data p).2 with
    | Except.error e => Except.error e
    | Except.ok row =>
      match renderRows sig_data ps with
      | Except.error e => Except.error e
      | Except.ok rest => Except.ok (row :: rest)

/-- `fetch-results`: build one row per packet whose end equals the requested
end date.  `sig_data` supplies each packet's received/required counts (their
formulas live outside the given sources). -/
def fetch_results (end_date : Nat) (sig_data : Packet → SigCounts × SigCounts) (db : DB) :
    Except Unit (List ResultRow) :=
  renderRows sig_data (db.packets.filter (fun p => p.endTime == end_date))

/-! ## Helper lemmas -/

theorem replaceFirst_length (pred : α → Bool) (f : α → α) (l : List α) :
    (replaceFirst pred f l).length = l.length := by
  induction l with
  | nil => rfl
  | cons a as ih =>
    unfold replaceFirst
    by_cases h : pred a = true
    · simp [h]
    · simp [h, ih]

theorem replaceFirst_mem_of_any (pred : α → Bool) (f : α → α) (l : List α)
    (h : l.any pred = true) : ∃ a, pred a = true ∧ f a ∈ replaceFirst pred f l := by
  induction l with
  | nil => simp at h
  | cons a as ih =>
    by_cases hp : pred a = true
    · exact ⟨a, hp, by simp [replaceFirst, hp]⟩
    · have hp' : pred a = false := by revert hp; cases pred a <;> simp
      simp only [List.any_cons, hp', Bool.false_or] at h
      obtain ⟨b, hb1, hb2⟩ := ih h
      exact ⟨b, hb1, by simp [replaceFirst, hp', hb2]⟩

/-! ## C6: extend-packet on a closed packet -/

/-- C6: for a packet whose end timestamp is in the past, `extend-packet`
leaves the stored state unchanged and reports that it cannot be extended. -/
theorem C6_extend_packet_closed_noop (now pid newDate : Nat) (db : DB) (p : Packet)
    (hfind : Packet.by_id db pid = some p) (hclosed : p.endTime < now) :
    extend_packet now pid newDate db = (db, Msg.alreadyClosedExtend) := by
  unfold extend_packet
  rw [hfind]
  have h : p.is_open now = false := by
    simp only [Packet.is_open, decide_eq_false_iff_not]
    omega
  simp [h]

theorem C6_witness :
    Packet.by_id ⟨[], [⟨1, "a", 0, 10⟩], [], [], []⟩ 1 = some ⟨1, "a", 0, 10⟩ ∧
    (Packet.mk 1 "a" 0 10).endTime < 20 ∧
    extend_packet 20 1 5 ⟨[], [⟨1, "a", 0, 10⟩], [], [], []⟩ =
      (⟨[], [⟨1, "a", 0, 10⟩], [], [], []⟩, Msg.alreadyClosedExtend) :=
  ⟨by decide, by decide,
    C6_extend_packet_closed_noop 20 1 5 ⟨[], [⟨1, "a", 0, 10⟩], [], [], []⟩ ⟨1, "a", 0, 10⟩
      (by decide) (by decide)⟩

/-! ## C8: remove-freshman-sig with no matching signature -/

/-- C8: on an open packet, `remove-freshman-sig` for a username with no
matching `FreshSignature` reports the freshman is not on-floor and leaves
every stored record unchanged. -/
theorem C8_remove_freshman_sig_not_onfloor (now pid : Nat) (username : String) (db : DB)
    (p : Packet) (hfind : Packet.by_id db pid = some p) (hopen : now < p.endTime)
    (hnone : ∀ s ∈ db.fresh_signatures, ¬(s.packet_id = pid ∧ s.freshman_username = username)) :
    remove_sig now pid username false db = (db, Msg.notOnfloor username) := by
  unfold remove_sig
  rw [hfind]
  have hop : p.is_open now = true := by
    simp only [Packet.is_open, decide_eq_true_eq]
    exact hopen
  have hany : (db.fresh_signatures.any
      (fun s => s.packet_id == pid && s.freshman_username == username)) = false := by
    rw [Bool.eq_false_iff]
    intro hc
    rw [List.any_eq_true] at hc
    obtain ⟨s, hs, hmatch⟩ := hc
    simp only [Bool.and_eq_true, beq_iff_eq] at hmatch
    exact hnone s hs hmatch
  simp [hop, hany]

theorem C8_witness :
    Packet.by_id ⟨[], [⟨1, "a", 0, 100⟩], [], [⟨2, "b", false⟩], []⟩ 1 = some ⟨1, "a", 0, 100⟩ ∧
    (20 : Nat) < (Packet.mk 1 "a" 0 100).endTime ∧
    (∀ s ∈ (DB.mk [] [⟨1, "a", 0, 100⟩] [] [⟨2, "b", false⟩] []).fresh_signatures,
      ¬(s.packet_id = 1 ∧ s.freshman_username = "b")) ∧
    remove_sig 20 1 "b" false ⟨[], [⟨1, "a", 0, 100⟩], [], [⟨2, "b", false⟩], []⟩ =
      (⟨[], [⟨1, "a", 0, 100⟩], [], [⟨2, "b", false⟩], []⟩, Msg.notOnfloor "b") :=
  ⟨by decide, by decide, by decide,
    C8_remove_freshman_sig_not_onfloor 20 1 "b" ⟨[], [⟨1, "a", 0, 100⟩], [], [⟨2, "b", false⟩], []⟩
      ⟨1, "a", 0, 100⟩ (by decide) (by decide) (by decide)⟩

/-! ## C5: remove-member-sig -/

/-- C5: on an open packet, `remove-member-sig` (i) clears the signed flag of
the matching `UpperSignature` when one exists, touching no other table;
(ii) otherwise deletes the matching `MiscSignature` rows and reports success
when exactly one exists; (iii) otherwise reports that no signature was found
and commits no change at all. -/
theorem C5_remove_member_sig_spec (now pid : Nat) (username : String) (db : DB) (p : Packet)
    (hfind : Packet.by_id db pid = some p) (hopen : now < p.endTime) :
    ((∃ s ∈ db.upper_signatures, s.packet_id = pid ∧ s.member = username) →
      (remove_sig now pid username true db).2 = Msg.successUnsigned ∧
      (∃ s ∈ (remove_sig now pid username true db).1.upper_signatures,
        s.packet_id = pid ∧ s.member = username ∧ s.signed = false) ∧
      (remove_sig now pid username true db).1.upper_signatures.length =
        db.upper_signatures.length ∧
      (remove_sig now pid username true db).1.misc_signatures = db.misc_signatures ∧
      (remove_sig now pid username true db).1.fresh_signatures = db.fresh_signatures ∧
      (remove_sig now pid username true db).1.packets = db.packets ∧
      (remove_sig now pid username true db).1.freshmen = db.freshmen) ∧
    ((∀ s ∈ db.upper_signatures, ¬(s.packet_id = pid ∧ s.member = username)) →
      (db.misc_signatures.filter
        (fun s => s.packet_id == pid && s.member == username)).length = 1 →
      (remove_sig now pid username true db).2 = Msg.successUnsigned ∧
      (remove_sig now pid username true db).1.misc_signatures =
        db.misc_signatures.filter (fun s => !(s.packet_id == pid && s.member == username)) ∧
      (remove_sig now pid username true db).1.upper_signatures = db.upper_signatures ∧
      (remove_sig now pid username true db).1.fresh_signatures = db.fresh_signatures ∧
      (remove_sig now pid username true db).1.packets = db.packets ∧
      (remove_sig now pid username true db).1.freshmen = db.freshmen) ∧
    ((∀ s ∈ db.upper_signatures, ¬(s.packet_id = pid ∧ s.member = username)) →
      (db.misc_signatures.filter
        (fun s => s.packet_id == pid && s.member == username)).length ≠ 1 →
      remove_sig now pid username true db = (db, Msg.couldNotFind)) := by
  have hop : p.is_open now = true := by
    simp only [Packet.is_open, decide_eq_true_eq]
    exact hopen
  refine ⟨?_, ?_, ?_⟩
  · intro hex
    have hany : (db.upper_signatures.any
        (fun s => s.packet_id == pid && s.member == username)) = true := by
      rw [List.any_eq_true]
      obtain ⟨s, hs, h1, h2⟩ := hex
      exact ⟨s, hs, by simp [h1, h2]⟩
    have hres : remove_sig now pid username true db =
        ({ db with
            upper_signatures := replaceFirst
              (fun s => s.packet_id == pid && s.member == username)
              (fun s => { s with signed := false }) db.upper_signatures },
          Msg.successUnsigned) := by
      unfold remove_sig
      rw [hfind]
      simp [hop, hany]
    rw [hres]
    refine ⟨rfl, ?_, replaceFirst_length _ _ _, rfl, rfl, rfl, rfl⟩
    obtain ⟨a, hpa, hmem⟩ := replaceFirst_mem_of_any
      (fun s => s.packet_id == pid && s.member == username)
      (fun s => { s with signed := false }) db.upper_signatures hany
    simp only [Bool.and_eq_true, beq_iff_eq] at hpa
    exact ⟨{ a with signed := false }, hmem, hpa.1, hpa.2, rfl⟩
  · intro hnone hone
    have hany : (db.upper_signatures.any
        (fun s => s.packet_id == pid && s.member == username)) = false := by
      rw [Bool.eq_false_iff]
      intro hc
      rw [List.any_eq_true] at hc
      obtain ⟨s, hs, hmatch⟩ := hc
      simp only [Bool.and_eq_true, beq_iff_eq] at hmatch
      exact hnone s hs hmatch
    have hres : remove_sig now pid username true db =
        ({ db with
            misc_signatures := db.misc_signatures.filter
              (fun s => !(s.packet_id == pid && s.member == username)) },
          Msg.successUnsigned) := by
      unfold remove_sig
      rw [hfind]
      simp [hop, hany, hone]
    rw [hres]
    exact ⟨rfl, rfl, rfl, rfl, rfl, rfl⟩
  · intro hnone hne
    have hany : (db.upper_signatures.any
        (fun s => s.packet_id == pid && s.member == username)) = false := by
      rw [Bool.eq_false_iff]
      intro hc
      rw [List.any_eq_true] at hc
      obtain ⟨s, hs, hmatch⟩ := hc
      simp only [Bool.and_eq_true, beq_iff_eq] at hmatch
      exact hnone s hs hmatch
    unfold remove_sig
    rw [hfind]
    simp [hop, hany, hne]

theorem C5_witness :
    Packet.by_id ⟨[], [⟨1, "a", 0, 100⟩], [blankUpper 1 "m" true], [], []⟩ 1 =
      some ⟨1, "a", 0, 100⟩ ∧
    (20 : Nat) < (Packet.mk 1 "a" 0 100).endTime ∧
    (∃ s ∈ (DB.mk [] [⟨1, "a", 0, 100⟩] [blankUpper 1 "m" true] [] []).upper_signatures,
      s.packet_id = 1 ∧ s.member = "m") ∧
    (remove_sig 20 1 "m" true ⟨[], [⟨1, "a", 0, 100⟩], [blankUpper 1 "m" true], [], []⟩).2 =
      Msg.successUnsigned ∧
    (∃ s ∈ (remove_sig 20 1 "m" true
        ⟨[], [⟨1, "a", 0, 100⟩], [blankUpper 1 "m" true], [], []⟩).1.upper_signatures,
      s.packet_id = 1 ∧ s.member = "m" ∧ s.signed = false) :=
  ⟨by decide, by decide, by decide,
    ((C5_remove_member_sig_spec 20 1 "m" ⟨[], [⟨1, "a", 0, 100⟩], [blankUpper 1 "m" true], [], []⟩
      ⟨1, "a", 0, 100⟩ (by decide) (by decide)).1 (by decide)).1,
    (((C5_remove_member_sig_spec 20 1 "m" ⟨[], [⟨1, "a", 0, 100⟩], [blankUpper 1 "m" true], [], []⟩
      ⟨1, "a", 0, 100⟩ (by decide) (by decide)).1 (by decide)).2).1⟩

/-! ## C7: create-packets timestamps -/

/-- C7 counterexample: a packet created by `create-packets` has an end
timestamp carrying the evening cutoff time (21:00), not the start-of-evening
time (19:00), so the claim that both start and end carry the fixed
start-of-evening time is false. -/
theorem C7_counterexample :
    ∃ p ∈ (create_packets true 0
        ⟨[], fun _ => false, fun _ => false, fun _ => "", [], [], [], [], []⟩
        [⟨"A", "TRUE", "x", "a"⟩] 1
        ⟨[⟨"a", "A", true⟩], [], [], [], []⟩).packets,
      p ∉ (DB.mk [⟨"a", "A", true⟩] [] [] [] []).packets ∧
      timeOfDay p.endTime ≠ packet_start_time := by
  refine ⟨⟨1, "a", 1140, 21420⟩, ?_, ?_, ?_⟩ <;> decide

/-- C7 (amended): every packet created by `create-packets` with season start
date `d` has `end = d + 14 days` at the fixed evening cutoff (21:00) and
`start` at the fixed start-of-evening time (19:00); the end carries the
cutoff time, not the start-of-evening time. -/
theorem C7_create_packets_timestamps (confirm : Bool) (base_date : Nat) (L : Ldap)
    (rows : List CSVRow) (nextId : Nat) (db : DB) (p : Packet)
    (hp : p ∈ (create_packets confirm base_date L rows nextId db).packets)
    (hnew : p ∉ db.packets) :
    p.endTime = combine base_date packet_end_time + 14 * minutesPerDay ∧
    p.start = combine base_date packet_start_time ∧
    timeOfDay p.start = packet_start_time ∧
    timeOfDay p.endTime = packet_end_time := by
  cases confirm with
  | false => exact absurd hp hnew
  | true =>
    simp only [create_packets, Bool.not_true, Bool.false_eq_true, if_false, List.mem_append] at hp
    rcases hp with h | h
    · exact absurd h hnew
    · rw [List.mem_map] at h
      obtain ⟨pr, hpr, hq⟩ := h
      subst hq
      refine ⟨rfl, rfl, ?_, ?_⟩
      · show timeOfDay (combine base_date packet_start_time) = packet_start_time
        simp only [timeOfDay, combine, minutesPerDay, packet_start_time]
        omega
      · show timeOfDay (combine base_date packet_end_time + 14 * minutesPerDay) = packet_end_time
        simp only [timeOfDay, combine, minutesPerDay, packet_end_time]
        omega

theorem C7_witness :
    (Packet.mk 1 "a" 1140 21420) ∈ (create_packets true 0
        ⟨[], fun _ => false, fun _ => false, fun _ => "", [], [], [], [], []⟩
        [⟨"A", "TRUE", "x", "a"⟩] 1
        ⟨[⟨"a", "A", true⟩], [], [], [], []⟩).packets ∧
    (Packet.mk 1 "a" 1140 21420) ∉ (DB.mk [⟨"a", "A", true⟩] [] [] [] []).packets ∧
    ((Packet.mk 1 "a" 1140 21420).endTime = combine 0 packet_end_time + 14 * minutesPerDay ∧
      (Packet.mk 1 "a" 1140 21420).start = combine 0 packet_start_time ∧
      timeOfDay (Packet.mk 1 "a" 1140 21420).start = packet_start_time ∧
      timeOfDay (Packet.mk 1 "a" 1140 21420).endTime = packet_end_time) :=
  ⟨by decide, by decide,
    C7_create_packets_timestamps true 0
      ⟨[], fun _ => false, fun _ => false, fun _ => "", [], [], [], [], []⟩
      [⟨"A", "TRUE", "x", "a"⟩] 1 ⟨[⟨"a", "A", true⟩], [], [], [], []⟩
      ⟨1, "a", 1140, 21420⟩ (by decide) (by decide)⟩

/-! ## C9: fetch-results divides without a zero guard -/

theorem packetRow_error (received required : SigCounts)
    (h : required.member_total = 0 ∨ required.total = 0) :
    packetRow received required = Except.error () := by
  rcases h with h | h
  · simp [packetRow, divPct, h]
  · by_cases hm : required.member_total = 0
    · simp [packetRow, divPct, hm]
    · have hm' : (required.member_total == 0) = false := by
        simpa using hm
      simp [packetRow, divPct, hm', h]

theorem renderRows_error (sig_data : Packet → SigCounts × SigCounts) (l : List Packet)
    (h : ∃ p ∈ l, packetRow (sig_data p).1 (sig_data p).2 = Except.error ()) :
    renderRows sig_data l = Except.error () := by
  induction l with
  | nil => simp at h
  | cons a l ih =>
    obtain ⟨p, hp, herr⟩ := h
    rcases List.mem_cons.mp hp with rfl | hp'
    · unfold renderRows
      rw [herr]
    · unfold renderRows
      cases hrow : packetRow (sig_data a).1 (sig_data a).2 with
      | error e => cases e; rfl
      | ok row => rw [ih ⟨p, hp', herr⟩]

/-- C9: the per-packet report computation divides by the required member
total and the required total with no zero guard, so whenever a matched
packet's required member total or required total is zero the whole command
fails with an arithmetic error instead of emitting a row. -/
theorem C9_fetch_results_div_zero (end_date : Nat)
    (sig_data : Packet → SigCounts × SigCounts) (db : DB) (p : Packet)
    (hp : p ∈ db.packets) (hdate : p.endTime = end_date)
    (hzero : (sig_data p).2.member_total = 0 ∨ (sig_data p).2.total = 0) :
    fetch_results end_date sig_data db = Except.error () := by
  unfold fetch_results
  apply renderRows_error
  refine ⟨p, ?_, packetRow_error _ _ hzero⟩
  rw [List.mem_filter]
  exact ⟨hp, by simp [hdate]⟩

theorem C9_witness :
    (Packet.mk 1 "a" 0 100) ∈ (DB.mk [] [⟨1, "a", 0, 100⟩] [] [] []).packets ∧
    (Packet.mk 1 "a" 0 100).endTime = 100 ∧
    ((fun _ : Packet => ((SigCounts.mk 0 0 0 0 0), (SigCounts.mk 0 0 0 0 0)))
        (Packet.mk 1 "a" 0 100)).2.member_total = 0 ∧
    fetch_results 100 (fun _ => ((SigCounts.mk 0 0 0 0 0), (SigCounts.mk 0 0 0 0 0)))
      (DB.mk [] [⟨1, "a", 0, 100⟩] [] [] []) = Except.error () :=
  ⟨by decide, by decide, by decide,
    C9_fetch_results_div_zero 100 (fun _ => ((SigCounts.mk 0 0 0 0 0), (SigCounts.mk 0 0 0 0 0)))
      (DB.mk [] [⟨1, "a", 0, 100⟩] [] [] []) ⟨1, "a", 0, 100⟩
      (by decide) (by decide) (Or.inl (by decide))⟩

/-! ## C10: parse_csv keys rows by username, last row wins -/

theorem map_eq_self_of (l : List α) (f : α → α) (h : ∀ a ∈ l, f a = a) : l.map f = l := by
  induction l with
  | nil => rfl
  | cons a l ih =>
    rw [List.map_cons, h a (List.mem_cons_self a l), ih]
    intro b hb
    exact h b (List.mem_cons_of_mem a hb)

theorem filter_map_replace_eq (d : List CSVFreshman) (c : CSVFreshman) :
    (d.map (fun e => if e.rit_username == c.rit_username then c else e)).filter
        (fun e => e.rit_username == c.rit_username) =
      (d.filter (fun e => e.rit_username == c.rit_username)).map (fun _ => c) := by
  rw [List.filter_map]
  have h1 : d.filter ((fun e => e.rit_username == c.rit_username) ∘
      (fun e => if e.rit_username == c.rit_username then c else e)) =
      d.filter (fun e => e.rit_username == c.rit_username) := by
    apply List.filter_congr
    intro e _
    by_cases h : (e.rit_username == c.rit_username) = true
    · simp [Function.comp, h]
    · have h' : ¬(e.rit_username = c.rit_username) := fun hq => h (beq_iff_eq.mpr hq)
      simp [Function.comp, h']
  rw [h1]
  apply List.map_congr_left
  intro e he
  rw [List.mem_filter] at he
  rw [if_pos he.2]

theorem filter_map_replace_ne (d : List CSVFreshman) (c : CSVFreshman) (u : String)
    (h : ¬(c.rit_username = u)) :
    (d.map (fun e => if e.rit_username == c.rit_username then c else e)).filter
        (fun e => e.rit_username == u) =
      d.filter (fun e => e.rit_username == u) := by
  have hcu : (c.rit_username == u) = false := by
    rw [beq_eq_false_iff_ne]
    exact h
  rw [List.filter_map]
  have h1 : d.filter ((fun e => e.rit_username == u) ∘
      (fun e => if e.rit_username == c.rit_username then c else e)) =
      d.filter (fun e => e.rit_username == u) := by
    apply List.filter_congr
    intro e _
    by_cases hr : (e.rit_username == c.rit_username) = true
    · have he : e.rit_username = c.rit_username := beq_iff_eq.mp hr
      simp [Function.comp, hr, he, hcu]
    · have hr' : ¬(e.rit_username = c.rit_username) := fun hq => hr (beq_iff_eq.mpr hq)
      simp [Function.comp, hr']
  rw [h1]
  apply map_eq_self_of
  intro e he
  rw [List.mem_filter] at he
  have heu : e.rit_username = u := beq_iff_eq.mp he.2
  have hr : ¬((e.rit_username == c.rit_username) = true) := by
    intro hq
    exact h (by rw [← beq_iff_eq.mp hq, heu])
  rw [if_neg hr]

theorem parse_csv_append_singleton (rs : List CSVRow) (r : CSVRow) :
    parse_csv (rs ++ [r]) = dictInsert (parse_csv rs) (CSVFreshman.ofRow r) := by
  simp [parse_csv, List.map_append, List.foldl_append]

/-- The dict entry for key `u` is the image of the last roster row whose
(stripped) fourth column equals `u`. -/
theorem parse_csv_filter_key (rows : List CSVRow) (u : String) :
    (parse_csv rows).filter (fun c => c.rit_username == u) =
      match (rows.filter (fun r => strip r.c3 == u)).getLast? with
      | none => []
      | some r => [CSVFreshman.ofRow r] := by
  induction rows using List.reverseRecOn with
  | nil => rfl
  | append_singleton rs r ih =>
    rw [parse_csv_append_singleton]
    by_cases hkey : ((CSVFreshman.ofRow r).rit_username == u) = true
    · have hkeq : strip r.c3 = u := by simpa [CSVFreshman.ofRow] using hkey
      have hrfilter : (rs ++ [r]).filter (fun r => strip r.c3 == u) =
          rs.filter (fun r => strip r.c3 == u) ++ [r] := by
        rw [List.filter_append]
        simp [hkeq]
      rw [hrfilter, List.getLast?_concat]
      unfold dictInsert
      have hc : (CSVFreshman.ofRow r).rit_username = u := by simpa using hkey
      by_cases hany : ((parse_csv rs).any
          (fun e => e.rit_username == (CSVFreshman.ofRow r).rit_username)) = true
      · rw [if_pos hany, ← hc, filter_map_replace_eq, hc, ih]
        rw [List.any_eq_true] at hany
        obtain ⟨e, he, heq⟩ := hany
        rw [hc] at heq
        have hne : (parse_csv rs).filter (fun c => c.rit_username == u) ≠ [] := by
          rw [ne_eq, List.filter_eq_nil_iff]
          push_neg
          exact ⟨e, he, by simp [heq]⟩
        rw [ih] at hne
        obtain ⟨rp, hrp⟩ : ∃ rp, (rs.filter (fun r => strip r.c3 == u)).getLast? = some rp := by
          cases hx : (rs.filter (fun r => strip r.c3 == u)).getLast? with
          | none => rw [hx] at hne; simp at hne
          | some rp => exact ⟨rp, rfl⟩
        rw [hrp]
        rfl
      · rw [if_neg hany, List.filter_append, ih]
        have hnone : ∀ e ∈ parse_csv rs, ¬(e.rit_username == u) = true := by
          intro e he hq
          apply hany
          rw [List.any_eq_true]
          exact ⟨e, he, by rw [hc]; exact hq⟩
        have hfil : (match (rs.filter (fun r => strip r.c3 == u)).getLast? with
            | none => ([] : List CSVFreshman)
            | some rp => [CSVFreshman.ofRow rp]) = [] := by
          rw [← ih]
          exact List.filter_eq_nil_iff.mpr hnone
        rw [hfil]
        simp [hkey]
    · have hkne : ¬(strip r.c3 = u) := by
        intro hc
        apply hkey
        simp [CSVFreshman.ofRow, hc]
      have hrfilter : (rs ++ [r]).filter (fun r => strip r.c3 == u) =
          rs.filter (fun r => strip r.c3 == u) := by
        rw [List.filter_append]
        simp [hkne]
      rw [hrfilter]
      unfold dictInsert
      by_cases hany : ((parse_csv rs).any
          (fun e => e.rit_username == (CSVFreshman.ofRow r).rit_username)) = true
      · rw [if_pos hany]
        have hcne : ¬((CSVFreshman.ofRow r).rit_username = u) := by
          intro hc
          apply hkey
          simp [hc]
        rw [filter_map_replace_ne _ _ _ hcne]
        exact ih
      · rw [if_neg hany]
        rw [List.filter_append, ih]
        simp [hkey]

/-- C10: when a roster file holds two or more rows with the same (stripped)
username column, the parsed dict has exactly one entry for that username,
built from the last such row in file order. -/
theorem C10_parse_csv_last_wins (rows : List CSVRow) (u : String)
    (hdup : 2 ≤ (rows.filter (fun r => strip r.c3 == u)).length) :
    ∃ r, (rows.filter (fun r => strip r.c3 == u)).getLast? = some r ∧
      (parse_csv rows).filter (fun c => c.rit_username == u) = [CSVFreshman.ofRow r] := by
  have h := parse_csv_filter_key rows u
  cases hlast : (rows.filter (fun r => strip r.c3 == u)).getLast? with
  | none =>
    rw [List.getLast?_eq_none_iff] at hlast
    rw [hlast] at hdup
    simp at hdup
  | some r =>
    refine ⟨r, rfl, ?_⟩
    rw [h, hlast]

theorem C10_witness :
    2 ≤ (([⟨"A", "TRUE", "x", "a"⟩, ⟨"B", "FALSE", "y", "a"⟩] : List CSVRow).filter
      (fun r => strip r.c3 == "a")).length ∧
    ∃ r, (([⟨"A", "TRUE", "x", "a"⟩, ⟨"B", "FALSE", "y", "a"⟩] : List CSVRow).filter
        (fun r => strip r.c3 == "a")).getLast? = some r ∧
      (parse_csv [⟨"A", "TRUE", "x", "a"⟩, ⟨"B", "FALSE", "y", "a"⟩]).filter
        (fun c => c.rit_username == "a") = [CSVFreshman.ofRow r] :=
  ⟨by decide,
    C10_parse_csv_last_wins [⟨"A", "TRUE", "x", "a"⟩, ⟨"B", "FALSE", "y", "a"⟩] "a" (by decide)⟩

/-! ## Fold machinery: the per-packet loops touch only that packet's rows -/

theorem memb_iff (l : List String) (u : String) : memb l u = true ↔ u ∈ l := by
  unfold memb
  rw [List.any_eq_true]
  constructor
  · rintro ⟨x, hx, hxe⟩
    rw [← beq_iff_eq.mp hxe]
    exact hx
  · intro hu
    exact ⟨u, hu, beq_self_eq_true u⟩

theorem foldl_proj_eq {σ β : Type} (proj : σ → β) (step : σ → Packet → σ) (g : β → β)
    (p : Packet) (l1 l2 : List Packet) (init : σ)
    (h1 : ∀ s q, q ∈ l1 → proj (step s q) = proj s)
    (h2 : ∀ s q, q ∈ l2 → proj (step s q) = proj s)
    (hp : ∀ s, proj (step s p) = g (proj s)) :
    proj ((l1 ++ p :: l2).foldl step init) = g (proj init) := by
  have A : ∀ (l : List Packet) (s : σ), (∀ s' q, q ∈ l → proj (step s' q) = proj s') →
      proj (l.foldl step s) = proj s := by
    intro l
    induction l with
    | nil => intro s _; rfl
    | cons a l ih =>
      intro s h
      rw [List.foldl_cons]
      rw [ih (step s a) (fun s' q hq => h s' q (List.mem_cons_of_mem _ hq))]
      exact h s a (List.mem_cons_self _ _)
  rw [List.foldl_append, List.foldl_cons]
  rw [A l2 _ h2, hp, A l1 _ h1]

theorem split_of_nodup_ids (l : List Packet) (p : Packet) (hp : p ∈ l)
    (hnd : (l.map Packet.id).Nodup) :
    ∃ l1 l2, l = l1 ++ p :: l2 ∧ (∀ q ∈ l1, q.id ≠ p.id) ∧ (∀ q ∈ l2, q.id ≠ p.id) := by
  obtain ⟨l1, l2, rfl⟩ := List.append_of_mem hp
  rw [List.map_append, List.map_cons, List.nodup_append] at hnd
  refine ⟨l1, l2, rfl, ?_, ?_⟩
  · intro q hq hqe
    exact hnd.2.2 (List.mem_map_of_mem Packet.id hq)
      (by rw [hqe]; exact List.mem_cons_self _ _)
  · intro q hq hqe
    have h2 := hnd.2.1
    rw [List.nodup_cons] at h2
    exact h2.1 (by rw [← hqe]; exact List.mem_map_of_mem Packet.id hq)

theorem nodup_ids_filter (packets : List Packet) (pred : Packet → Bool)
    (hnd : (packets.map Packet.id).Nodup) :
    ((packets.filter pred).map Packet.id).Nodup :=
  List.Nodup.sublist (List.Sublist.map _ (List.filter_sublist _)) hnd

theorem filter_key_filter_ne {α} (key : α → Nat) (l : List α) (pid qid : Nat) (h : qid ≠ pid) :
    (l.filter (fun s => !(key s == qid))).filter (fun s => key s == pid) =
      l.filter (fun s => key s == pid) := by
  rw [List.filter_filter]
  apply List.filter_congr
  intro a _
  by_cases hk : key a = pid
  · have h1 : (key a == pid) = true := beq_iff_eq.mpr hk
    have h2 : (key a == qid) = false := by
      rw [beq_eq_false_iff_ne, hk]
      exact fun hq => h hq.symm
    rw [h1, h2]
    rfl
  · have h1 : (key a == pid) = false := beq_eq_false_iff_ne.mpr hk
    rw [h1]
    rfl

theorem filter_key_filter_self {α} (key : α → Nat) (l : List α) (pid : Nat) :
    (l.filter (fun s => !(key s == pid))).filter (fun s => key s == pid) = [] := by
  rw [List.filter_filter, List.filter_eq_nil_iff]
  intro a _
  cases h : key a == pid <;> simp [h]

theorem filter_key_all {α} (key : α → Nat) (l : List α) (pid : Nat)
    (h : ∀ s ∈ l, key s = pid) : l.filter (fun s => key s == pid) = l := by
  rw [List.filter_eq_self]
  intro a ha
  exact beq_iff_eq.mpr (h a ha)

theorem filter_key_none {α} (key : α → Nat) (l : List α) (pid qid : Nat) (hne : qid ≠ pid)
    (h : ∀ s ∈ l, key s = qid) : l.filter (fun s => key s == pid) = [] := by
  rw [List.filter_eq_nil_iff]
  intro a ha hc
  exact hne (by rw [← h a ha]; exact beq_iff_eq.mp hc)

/-! ## Row-shape lemmas for the ldap-sync phases -/

theorem refreshedUppers_shape (L : Ldap) (uppers : List UpperSignature) :
    ∀ s ∈ refreshedUppers L uppers, ∃ s0 ∈ uppers,
      s.member = s0.member ∧ s.signed = s0.signed ∧ s.packet_id = s0.packet_id := by
  intro s hs
  unfold refreshedUppers at hs
  rw [List.mem_map] at hs
  obtain ⟨s0, h0, rfl⟩ := hs
  refine ⟨s0, h0, ?_, ?_, ?_⟩ <;> (split <;> rfl)

theorem syncUppers_pid (L : Ldap) (p : Packet) (uppers : List UpperSignature)
    (miscs : List MiscSignature) (hu : ∀ s ∈ uppers, s.packet_id = p.id) :
    ∀ s ∈ syncUppers L p uppers miscs, s.packet_id = p.id := by
  intro s hs
  unfold syncUppers at hs
  simp only [List.mem_append] at hs
  rcases hs with (hs | hs) | hs
  · obtain ⟨s0, h0, _, _, h3⟩ := refreshedUppers_shape L uppers s (List.mem_filter.mp hs).1
    rw [h3]
    exact hu s0 h0
  · rw [List.mem_map] at hs
    obtain ⟨m0, _, rfl⟩ := hs
    rfl
  · rw [List.mem_map] at hs
    obtain ⟨u0, _, rfl⟩ := hs
    rfl

theorem syncMiscs_pid (L : Ldap) (p : Packet) (uppers : List UpperSignature)
    (miscs : List MiscSignature) (hm : ∀ s ∈ miscs, s.packet_id = p.id) :
    ∀ s ∈ syncMiscs L p uppers miscs, s.packet_id = p.id := by
  intro s hs
  unfold syncMiscs miscsAfterPhase2 at hs
  have hs' := (List.mem_filter.mp hs).1
  rw [List.mem_append] at hs'
  rcases hs' with h | h
  · exact hm s h
  · rw [List.mem_map] at h
    obtain ⟨s0, _, rfl⟩ := h
    rfl

theorem syncUppers_member_act (L : Ldap) (p : Packet) (uppers : List UpperSignature)
    (miscs : List MiscSignature) :
    ∀ s ∈ syncUppers L p uppers miscs, memb (allUpper L) s.member = true := by
  intro s hs
  unfold syncUppers at hs
  simp only [List.mem_append] at hs
  rcases hs with (hs | hs) | hs
  · exact (List.mem_filter.mp hs).2
  · rw [List.mem_map] at hs
    obtain ⟨m0, hm0, rfl⟩ := hs
    exact (List.mem_filter.mp hm0).2
  · rw [List.mem_map] at hs
    obtain ⟨u0, hu0, rfl⟩ := hs
    exact (memb_iff _ _).mpr (List.mem_filter.mp hu0).1

theorem syncMiscs_member_not_act (L : Ldap) (p : Packet) (uppers : List UpperSignature)
    (miscs : List MiscSignature) :
    ∀ s ∈ syncMiscs L p uppers miscs, memb (allUpper L) s.member = false := by
  intro s hs
  unfold syncMiscs at hs
  have h := (List.mem_filter.mp hs).2
  cases hx : memb (allUpper L) s.member
  · rfl
  · rw [hx] at h
    cases h

/-! ## The per-packet projection of ldap_sync -/

theorem syncStep_upper_preserve (L : Ldap) (pid : Nat) (db : DB) (q : Packet)
    (hne : q.id ≠ pid) :
    (syncStep L db q).upper_signatures.filter (fun s => s.packet_id == pid) =
      db.upper_signatures.filter (fun s => s.packet_id == pid) := by
  have hq : ∀ s ∈ db.upper_signatures.filter (fun s => s.packet_id == q.id),
      s.packet_id = q.id := fun s hs => beq_iff_eq.mp (List.mem_filter.mp hs).2
  show (db.upper_signatures.filter (fun s => !(s.packet_id == q.id)) ++
      syncUppers L q (db.upper_signatures.filter (fun s => s.packet_id == q.id))
        (db.misc_signatures.filter (fun s => s.packet_id == q.id))).filter
      (fun s => s.packet_id == pid) = _
  rw [List.filter_append,
    filter_key_filter_ne UpperSignature.packet_id _ pid q.id hne,
    filter_key_none UpperSignature.packet_id _ pid q.id hne
      (syncUppers_pid L q _ _ hq),
    List.append_nil]

theorem syncStep_misc_preserve (L : Ldap) (pid : Nat) (db : DB) (q : Packet)
    (hne : q.id ≠ pid) :
    (syncStep L db q).misc_signatures.filter (fun s => s.packet_id == pid) =
      db.misc_signatures.filter (fun s => s.packet_id == pid) := by
  have hq : ∀ s ∈ db.misc_signatures.filter (fun s => s.packet_id == q.id),
      s.packet_id = q.id := fun s hs => beq_iff_eq.mp (List.mem_filter.mp hs).2
  show (db.misc_signatures.filter (fun s => !(s.packet_id == q.id)) ++
      syncMiscs L q (db.upper_signatures.filter (fun s => s.packet_id == q.id))
        (db.misc_signatures.filter (fun s => s.packet_id == q.id))).filter
      (fun s => s.packet_id == pid) = _
  rw [List.filter_append,
    filter_key_filter_ne MiscSignature.packet_id _ pid q.id hne,
    filter_key_none MiscSignature.packet_id _ pid q.id hne
      (syncMiscs_pid L q _ _ hq),
    List.append_nil]

theorem syncStep_upper_hit (L : Ldap) (db : DB) (p : Packet) :
    (syncStep L db p).upper_signatures.filter (fun s => s.packet_id == p.id) =
      syncUppers L p (db.upper_signatures.filter (fun s => s.packet_id == p.id))
        (db.misc_signatures.filter (fun s => s.packet_id == p.id)) := by
  have hp : ∀ s ∈ db.upper_signatures.filter (fun s => s.packet_id == p.id),
      s.packet_id = p.id := fun s hs => beq_iff_eq.mp (List.mem_filter.mp hs).2
  show (db.upper_signatures.filter (fun s => !(s.packet_id == p.id)) ++
      syncUppers L p (db.upper_signatures.filter (fun s => s.packet_id == p.id))
        (db.misc_signatures.filter (fun s => s.packet_id == p.id))).filter
      (fun s => s.packet_id == p.id) = _
  rw [List.filter_append,
    filter_key_filter_self UpperSignature.packet_id _ p.id,
    filter_key_all UpperSignature.packet_id _ p.id (syncUppers_pid L p _ _ hp),
    List.nil_append]

theorem syncStep_misc_hit (L : Ldap) (db : DB) (p : Packet) :
    (syncStep L db p).misc_signatures.filter (fun s => s.packet_id == p.id) =
      syncMiscs L p (db.upper_signatures.filter (fun s => s.packet_id == p.id))
        (db.misc_signatures.filter (fun s => s.packet_id == p.id)) := by
  have hp : ∀ s ∈ db.misc_signatures.filter (fun s => s.packet_id == p.id),
      s.packet_id = p.id := fun s hs => beq_iff_eq.mp (List.mem_filter.mp hs).2
  show (db.misc_signatures.filter (fun s => !(s.packet_id == p.id)) ++
      syncMiscs L p (db.upper_signatures.filter (fun s => s.packet_id == p.id))
        (db.misc_signatures.filter (fun s => s.packet_id == p.id))).filter
      (fun s => s.packet_id == p.id) = _
  rw [List.filter_append,
    filter_key_filter_self MiscSignature.packet_id _ p.id,
    filter_key_all MiscSignature.packet_id _ p.id (syncMiscs_pid L p _ _ hp),
    List.nil_append]

theorem foldl_syncStep_packets (L : Ldap) (l : List Packet) (db : DB) :
    (l.foldl (syncStep L) db).packets = db.packets := by
  induction l generalizing db with
  | nil => rfl
  | cons a l ih =>
    rw [List.foldl_cons, ih]
    rfl

theorem ldap_sync_packets (now : Nat) (L : Ldap) (db : DB) :
    (ldap_sync now L db).packets = db.packets :=
  foldl_syncStep_packets L _ db

/-- After one `ldap-sync` run, the rows of an open packet `p` are exactly
those computed by the four per-packet phases on `p`'s previous rows. -/
theorem ldap_sync_rows (now : Nat) (L : Ldap) (db : DB) (p : Packet)
    (hp : p ∈ db.packets) (hopen : now < p.endTime)
    (hnd : (db.packets.map Packet.id).Nodup) :
    ((ldap_sync now L db).upper_signatures.filter (fun s => s.packet_id == p.id),
      (ldap_sync now L db).misc_signatures.filter (fun s => s.packet_id == p.id)) =
    (syncUppers L p (db.upper_signatures.filter (fun s => s.packet_id == p.id))
        (db.misc_signatures.filter (fun s => s.packet_id == p.id)),
      syncMiscs L p (db.upper_signatures.filter (fun s => s.packet_id == p.id))
        (db.misc_signatures.filter (fun s => s.packet_id == p.id))) := by
  have hpf : p ∈ db.packets.filter (fun q => decide (now < q.endTime)) := by
    rw [List.mem_filter]
    exact ⟨hp, by simpa using hopen⟩
  have hndf := nodup_ids_filter db.packets (fun q => decide (now < q.endTime)) hnd
  obtain ⟨l1, l2, hsplit, hl1, hl2⟩ := split_of_nodup_ids _ p hpf hndf
  unfold ldap_sync
  rw [hsplit]
  exact foldl_proj_eq
    (fun s => (s.upper_signatures.filter (fun x => x.packet_id == p.id),
      s.misc_signatures.filter (fun x => x.packet_id == p.id)))
    (syncStep L)
    (fun pr => (syncUppers L p pr.1 pr.2, syncMiscs L p pr.1 pr.2))
    p l1 l2 db
    (fun s q hq => by
      rw [Prod.mk.injEq]
      exact ⟨syncStep_upper_preserve L p.id s q (hl1 q hq),
        syncStep_misc_preserve L p.id s q (hl1 q hq)⟩)
    (fun s q hq => by
      rw [Prod.mk.injEq]
      exact ⟨syncStep_upper_preserve L p.id s q (hl2 q hq),
        syncStep_misc_preserve L p.id s q (hl2 q hq)⟩)
    (fun s => by
      rw [Prod.mk.injEq]
      exact ⟨syncStep_upper_hit L s p, syncStep_misc_hit L s p⟩)

/-! ## C1: ldap-sync leaves each signer in exactly one signature table -/

/-- C1: after one `ldap-sync` run, a signer username appearing on an open
packet appears in exactly one of that packet's `UpperSignature` and
`MiscSignature` member sets, never in both. -/
theorem C1_ldap_sync_partition (now : Nat) (L : Ldap) (db : DB) (p : Packet)
    (hp : p ∈ db.packets) (hopen : now < p.endTime)
    (hnd : (db.packets.map Packet.id).Nodup) (u : String)
    (happ : u ∈ ((ldap_sync now L db).upper_signatures.filter
        (fun s => s.packet_id == p.id)).map UpperSignature.member ∨
      u ∈ ((ldap_sync now L db).misc_signatures.filter
        (fun s => s.packet_id == p.id)).map MiscSignature.member) :
    (u ∈ ((ldap_sync now L db).upper_signatures.filter
        (fun s => s.packet_id == p.id)).map UpperSignature.member ∧
      u ∉ ((ldap_sync now L db).misc_signatures.filter
        (fun s => s.packet_id == p.id)).map MiscSignature.member) ∨
    (u ∉ ((ldap_sync now L db).upper_signatures.filter
        (fun s => s.packet_id == p.id)).map UpperSignature.member ∧
      u ∈ ((ldap_sync now L db).misc_signatures.filter
        (fun s => s.packet_id == p.id)).map MiscSignature.member) := by
  have hrows := ldap_sync_rows now L db p hp hopen hnd
  rw [Prod.mk.injEq] at hrows
  have hUact : u ∈ ((ldap_sync now L db).upper_signatures.filter
      (fun s => s.packet_id == p.id)).map UpperSignature.member →
      memb (allUpper L) u = true := by
    intro hu
    rw [List.mem_map] at hu
    obtain ⟨s, hs, rfl⟩ := hu
    rw [hrows.1] at hs
    exact syncUppers_member_act L p _ _ s hs
  have hMact : u ∈ ((ldap_sync now L db).misc_signatures.filter
      (fun s => s.packet_id == p.id)).map MiscSignature.member →
      memb (allUpper L) u = false := by
    intro hu
    rw [List.mem_map] at hu
    obtain ⟨s, hs, rfl⟩ := hu
    rw [hrows.2] at hs
    exact syncMiscs_member_not_act L p _ _ s hs
  rcases happ with h | h
  · left
    refine ⟨h, fun hc => ?_⟩
    rw [hUact h] at hMact
    cases hMact hc
  · right
    refine ⟨fun hc => ?_, h⟩
    rw [hMact h] at hUact
    cases hUact hc

theorem C1_witness :
    (Packet.mk 1 "f" 0 100) ∈ (DB.mk [] [⟨1, "f", 0, 100⟩] [blankUpper 1 "m" true] [] []).packets ∧
    (20 : Nat) < (Packet.mk 1 "f" 0 100).endTime ∧
    (("m" ∈ (((ldap_sync 20 ⟨["m"], fun _ => false, fun _ => false, fun _ => "", [], [], [], [], []⟩
          (DB.mk [] [⟨1, "f", 0, 100⟩] [blankUpper 1 "m" true] [] [])).upper_signatures.filter
            (fun s => s.packet_id == (Packet.mk 1 "f" 0 100).id)).map UpperSignature.member) ∧
      "m" ∉ (((ldap_sync 20 ⟨["m"], fun _ => false, fun _ => false, fun _ => "", [], [], [], [], []⟩
          (DB.mk [] [⟨1, "f", 0, 100⟩] [blankUpper 1 "m" true] [] [])).misc_signatures.filter
            (fun s => s.packet_id == (Packet.mk 1 "f" 0 100).id)).map MiscSignature.member)) ∨
     ("m" ∉ (((ldap_sync 20 ⟨["m"], fun _ => false, fun _ => false, fun _ => "", [], [], [], [], []⟩
          (DB.mk [] [⟨1, "f", 0, 100⟩] [blankUpper 1 "m" true] [] [])).upper_signatures.filter
            (fun s => s.packet_id == (Packet.mk 1 "f" 0 100).id)).map UpperSignature.member) ∧
      "m" ∈ (((ldap_sync 20 ⟨["m"], fun _ => false, fun _ => false, fun _ => "", [], [], [], [], []⟩
          (DB.mk [] [⟨1, "f", 0, 100⟩] [blankUpper 1 "m" true] [] [])).misc_signatures.filter
            (fun s => s.packet_id == (Packet.mk 1 "f" 0 100).id)).map MiscSignature.member))) :=
  ⟨by decide, by decide,
    C1_ldap_sync_partition 20
      ⟨["m"], fun _ => false, fun _ => false, fun _ => "", [], [], [], [], []⟩
      (DB.mk [] [⟨1, "f", 0, 100⟩] [blankUpper 1 "m" true] [] [])
      (Packet.mk 1 "f" 0 100) (by decide) (by decide) (by decide) "m" (Or.inl (by decide))⟩

/-! ## C2: the UpperSignature -> MiscSignature -> UpperSignature round trip -/

theorem syncMiscs_of_signed (L : Ldap) (p : Packet) (uppers : List UpperSignature)
    (miscs : List MiscSignature) (m : String)
    (hm : memb (allUpper L) m = false)
    (hex : ∃ s ∈ uppers, s.member = m ∧ s.signed = true) :
    ∃ s ∈ syncMiscs L p uppers miscs, s.member = m := by
  obtain ⟨s0, hs0, hmem, hsig⟩ := hex
  have hs0r : s0 ∈ refreshedUppers L uppers := by
    unfold refreshedUppers
    rw [List.mem_map]
    refine ⟨s0, hs0, ?_⟩
    rw [hmem, hm]
    rfl
  refine ⟨⟨p.id, m⟩, ?_, rfl⟩
  unfold syncMiscs
  rw [List.mem_filter]
  constructor
  · unfold miscsAfterPhase2
    rw [List.mem_append]
    right
    rw [List.mem_map]
    refine ⟨s0, ?_, ?_⟩
    · rw [List.mem_filter]
      refine ⟨hs0r, ?_⟩
      rw [hmem, hm, hsig]
      rfl
    · rw [hmem]
  · show (!memb (allUpper L) m) = true
    rw [hm]
    rfl

theorem syncUppers_not_mem_inactive (L : Ldap) (p : Packet) (uppers : List UpperSignature)
    (miscs : List MiscSignature) (m : String) (hm : memb (allUpper L) m = false) :
    ∀ s ∈ syncUppers L p uppers miscs, s.member ≠ m := by
  intro s hs he
  have hact := syncUppers_member_act L p uppers miscs s hs
  rw [he, hm] at hact
  cases hact

theorem syncUppers_reactivated (L : Ldap) (p : Packet) (uppers : List UpperSignature)
    (miscs : List MiscSignature) (m : String)
    (hmem : memb (allUpper L) m = true)
    (hnoup : ∀ s ∈ uppers, s.member ≠ m)
    (hmisc : ∃ s ∈ miscs, s.member = m) :
    (∃ s ∈ syncUppers L p uppers miscs, s.member = m ∧ s.signed = true) ∧
    (∀ s ∈ syncUppers L p uppers miscs, s.member = m → s.signed = true) := by
  obtain ⟨s0, hs0, hs0m⟩ := hmisc
  have hreact : mkUpperSig L p.id m true ∈
      ((miscsAfterPhase2 L p uppers miscs).filter (fun s => memb (allUpper L) s.member)).map
        (fun s => mkUpperSig L p.id s.member true) := by
    rw [List.mem_map]
    refine ⟨s0, ?_, by rw [hs0m]⟩
    rw [List.mem_filter]
    refine ⟨?_, by rw [hs0m]; exact hmem⟩
    unfold miscsAfterPhase2
    rw [List.mem_append]
    exact Or.inl hs0
  constructor
  · refine ⟨mkUpperSig L p.id m true, ?_, rfl, rfl⟩
    unfold syncUppers
    simp only [List.mem_append]
    left
    right
    exact hreact
  · intro s hs hsm
    unfold syncUppers at hs
    simp only [List.mem_append] at hs
    rcases hs with (hs | hs) | hs
    · obtain ⟨s1, h1, hm1, _, _⟩ := refreshedUppers_shape L uppers s (List.mem_filter.mp hs).1
      have : s1.member = m := by rw [← hm1, hsm]
      exact absurd this (hnoup s1 h1)
    · rw [List.mem_map] at hs
      obtain ⟨m0, _, rfl⟩ := hs
      rfl
    · rw [List.mem_map] at hs
      obtain ⟨u0, hu0, rfl⟩ := hs
      rw [List.mem_filter] at hu0
      exfalso
      have hum : u0 = m := hsm
      have hnames : memb ((((refreshedUppers L uppers).filter
          (fun s => memb (allUpper L) s.member)) ++
          ((miscsAfterPhase2 L p uppers miscs).filter
            (fun s => memb (allUpper L) s.member)).map
            (fun s => mkUpperSig L p.id s.member true)).map (fun s => s.member)) u0 = true := by
        rw [memb_iff, List.mem_map]
        refine ⟨mkUpperSig L p.id m true, ?_, ?_⟩
        · rw [List.mem_append]
          right
          exact hreact
        · exact hum.symm
      rw [hnames] at hu0
      cases hu0.2

/-- C2: a signer with a signed `UpperSignature` on an open packet who is
absent from the active-member set in one `ldap-sync` run (migrating the row
to a `MiscSignature`) and present again in a later run (migrating it back)
ends with an `UpperSignature` whose signed flag is true. -/
theorem C2_ldap_sync_round_trip (now1 now2 : Nat) (L1 L2 : Ldap) (db : DB) (p : Packet)
    (m : String)
    (hp : p ∈ db.packets)
    (hopen1 : now1 < p.endTime) (hopen2 : now2 < p.endTime)
    (hnd : (db.packets.map Packet.id).Nodup)
    (hsig : ∃ s ∈ db.upper_signatures, s.packet_id = p.id ∧ s.member = m ∧ s.signed = true)
    (hout : memb (allUpper L1) m = false)
    (hin : memb (allUpper L2) m = true) :
    (∃ s ∈ (ldap_sync now2 L2 (ldap_sync now1 L1 db)).upper_signatures,
      s.packet_id = p.id ∧ s.member = m ∧ s.signed = true) ∧
    (∀ s ∈ (ldap_sync now2 L2 (ldap_sync now1 L1 db)).upper_signatures,
      s.packet_id = p.id → s.member = m → s.signed = true) := by
  have hrows1 := ldap_sync_rows now1 L1 db p hp hopen1 hnd
  rw [Prod.mk.injEq] at hrows1
  have hp1 : p ∈ (ldap_sync now1 L1 db).packets := by
    rw [ldap_sync_packets]
    exact hp
  have hnd1 : ((ldap_sync now1 L1 db).packets.map Packet.id).Nodup := by
    rw [ldap_sync_packets]
    exact hnd
  have hrows2 := ldap_sync_rows now2 L2 (ldap_sync now1 L1 db) p hp1 hopen2 hnd1
  rw [Prod.mk.injEq] at hrows2
  have hexpu : ∃ s ∈ db.upper_signatures.filter (fun s => s.packet_id == p.id),
      s.member = m ∧ s.signed = true := by
    obtain ⟨s, hs, h1, h2, h3⟩ := hsig
    exact ⟨s, List.mem_filter.mpr ⟨hs, beq_iff_eq.mpr h1⟩, h2, h3⟩
  have hmisc1 : ∃ s ∈ (ldap_sync now1 L1 db).misc_signatures.filter
      (fun s => s.packet_id == p.id), s.member = m := by
    rw [hrows1.2]
    exact syncMiscs_of_signed L1 p _ _ m hout hexpu
  have hnoup1 : ∀ s ∈ (ldap_sync now1 L1 db).upper_signatures.filter
      (fun s => s.packet_id == p.id), s.member ≠ m := by
    rw [hrows1.1]
    exact syncUppers_not_mem_inactive L1 p _ _ m hout
  have hmain := syncUppers_reactivated L2 p
    ((ldap_sync now1 L1 db).upper_signatures.filter (fun s => s.packet_id == p.id))
    ((ldap_sync now1 L1 db).misc_signatures.filter (fun s => s.packet_id == p.id))
    m hin hnoup1 hmisc1
  constructor
  · obtain ⟨s, hs, hsm, hss⟩ := hmain.1
    rw [← hrows2.1] at hs
    have hs' := List.mem_filter.mp hs
    exact ⟨s, hs'.1, beq_iff_eq.mp hs'.2, hsm, hss⟩
  · intro s hs hpid hsm
    have hs' : s ∈ (ldap_sync now2 L2 (ldap_sync now1 L1 db)).upper_signatures.filter
        (fun s => s.packet_id == p.id) :=
      List.mem_filter.mpr ⟨hs, beq_iff_eq.mpr hpid⟩
    rw [hrows2.1] at hs'
    exact hmain.2 s hs' hsm

theorem C2_witness :
    (Packet.mk 1 "f" 0 100) ∈ (DB.mk [] [⟨1, "f", 0, 100⟩] [blankUpper 1 "m" true] [] []).packets ∧
    memb (allUpper ⟨[], fun _ => false, fun _ => false, fun _ => "", [], [], [], [], []⟩) "m" =
      false ∧
    memb (allUpper ⟨["m"], fun _ => false, fun _ => false, fun _ => "", [], [], [], [], []⟩) "m" =
      true ∧
    ((∃ s ∈ (ldap_sync 20 ⟨["m"], fun _ => false, fun _ => false, fun _ => "", [], [], [], [], []⟩
        (ldap_sync 20 ⟨[], fun _ => false, fun _ => false, fun _ => "", [], [], [], [], []⟩
          (DB.mk [] [⟨1, "f", 0, 100⟩] [blankUpper 1 "m" true] [] []))).upper_signatures,
      s.packet_id = (Packet.mk 1 "f" 0 100).id ∧ s.member = "m" ∧ s.signed = true) ∧
     (∀ s ∈ (ldap_sync 20 ⟨["m"], fun _ => false, fun _ => false, fun _ => "", [], [], [], [], []⟩
        (ldap_sync 20 ⟨[], fun _ => false, fun _ => false, fun _ => "", [], [], [], [], []⟩
          (DB.mk [] [⟨1, "f", 0, 100⟩] [blankUpper 1 "m" true] [] []))).upper_signatures,
      s.packet_id = (Packet.mk 1 "f" 0 100).id → s.member = "m" → s.signed = true)) :=
  ⟨by decide, by decide, by decide,
    C2_ldap_sync_round_trip 20 20
      ⟨[], fun _ => false, fun _ => false, fun _ => "", [], [], [], [], []⟩
      ⟨["m"], fun _ => false, fun _ => false, fun _ => "", [], [], [], [], []⟩
      (DB.mk [] [⟨1, "f", 0, 100⟩] [blankUpper 1 "m" true] [] [])
      (Packet.mk 1 "f" 0 100) "m"
      (by decide) (by decide) (by decide) (by decide) (by decide) (by decide) (by decide)⟩

/-! ## Roster-sync lemmas: the parsed dict and the synced Freshman table -/

theorem dictInsert_keys_nodup (d : List CSVFreshman) (c : CSVFreshman)
    (h : (d.map CSVFreshman.rit_username).Nodup) :
    ((dictInsert d c).map CSVFreshman.rit_username).Nodup := by
  unfold dictInsert
  by_cases hany : (d.any (fun e => e.rit_username == c.rit_username)) = true
  · rw [if_pos hany]
    have hkeys : (d.map (fun e => if e.rit_username == c.rit_username then c else e)).map
        CSVFreshman.rit_username = d.map CSVFreshman.rit_username := by
      rw [List.map_map]
      apply List.map_congr_left
      intro e _
      show CSVFreshman.rit_username (if (e.rit_username == c.rit_username) = true then c else e) =
        e.rit_username
      by_cases he : (e.rit_username == c.rit_username) = true
      · rw [if_pos he]
        exact (beq_iff_eq.mp he).symm
      · rw [if_neg he]
    rw [hkeys]
    exact h
  · rw [if_neg hany, List.map_append, List.nodup_append]
    refine ⟨h, List.nodup_singleton _, ?_⟩
    intro a ha hb
    rw [List.mem_map] at ha
    obtain ⟨e, he, rfl⟩ := ha
    have hbc : e.rit_username = c.rit_username := by
      simpa using hb
    apply hany
    rw [List.any_eq_true]
    exact ⟨e, he, beq_iff_eq.mpr hbc⟩

theorem parse_csv_keys_nodup (rows : List CSVRow) :
    ((parse_csv rows).map CSVFreshman.rit_username).Nodup := by
  unfold parse_csv
  have hgen : ∀ (cs : List CSVFreshman) (d : List CSVFreshman),
      (d.map CSVFreshman.rit_username).Nodup →
      ((cs.foldl dictInsert d).map CSVFreshman.rit_username).Nodup := by
    intro cs
    induction cs with
    | nil => intro d hd; exact hd
    | cons c cs ih =>
      intro d hd
      rw [List.foldl_cons]
      exact ih (dictInsert d c) (dictInsert_keys_nodup d c hd)
  exact hgen (rows.map CSVFreshman.ofRow) [] List.nodup_nil

theorem find?_eq_some_of_unique {α} (p : α → Bool) (l : List α) (a : α) (ha : a ∈ l)
    (hpa : p a = true) (huniq : ∀ b ∈ l, p b = true → b = a) : l.find? p = some a := by
  induction l with
  | nil => cases ha
  | cons x l ih =>
    by_cases hx : p x = true
    · have hxa : x = a := huniq x (List.mem_cons_self _ _) hx
      subst hxa
      exact List.find?_cons_of_pos l hx
    · rw [List.find?_cons_of_neg l hx]
      rcases List.mem_cons.mp ha with rfl | ha'
      · exact absurd hpa hx
      · exact ih ha' (fun b hb hp => huniq b (List.mem_cons_of_mem _ hb) hp)

theorem csvLookup_self (csv : List CSVFreshman)
    (hnd : (csv.map CSVFreshman.rit_username).Nodup) (c : CSVFreshman) (hc : c ∈ csv) :
    csvLookup csv c.rit_username = some c := by
  unfold csvLookup
  refine find?_eq_some_of_unique (fun e => e.rit_username == c.rit_username) csv c hc
    (beq_self_eq_true c.rit_username) ?_
  intro b hb hp
  have hp' : (b.rit_username == c.rit_username) = true := hp
  exact List.inj_on_of_nodup_map hnd hb hc (beq_iff_eq.mp hp')

theorem updateFreshman_key (csv : List CSVFreshman) (f : Freshman) :
    (updateFreshman csv f).rit_username = f.rit_username := by
  unfold updateFreshman
  cases csvLookup csv f.rit_username <;> rfl

theorem updateFreshman_eq_some (csv : List CSVFreshman) (f : Freshman) (c : CSVFreshman)
    (hl : csvLookup csv f.rit_username = some c) :
    updateFreshman csv f = { f with name := c.name, onfloor := c.onfloor } := by
  unfold updateFreshman
  rw [hl]

theorem updateFreshman_eq_none (csv : List CSVFreshman) (f : Freshman)
    (hl : csvLookup csv f.rit_username = none) :
    updateFreshman csv f = { f with onfloor := false } := by
  unfold updateFreshman
  rw [hl]

theorem updateFreshman_idem (csv : List CSVFreshman) (f : Freshman) :
    updateFreshman csv (updateFreshman csv f) = updateFreshman csv f := by
  cases hl : csvLookup csv f.rit_username with
  | some c =>
    rw [updateFreshman_eq_some csv f c hl]
    rw [updateFreshman_eq_some csv { f with name := c.name, onfloor := c.onfloor } c hl]
  | none =>
    rw [updateFreshman_eq_none csv f hl]
    rw [updateFreshman_eq_none csv { f with onfloor := false } hl]

theorem synced_mem_keys (csv : List CSVFreshman) (fs : List Freshman) (c : CSVFreshman)
    (hc : c ∈ csv) :
    ∃ f ∈ syncedFreshmen csv fs, f.rit_username = c.rit_username := by
  by_cases hany : (fs.any (fun f => f.rit_username == c.rit_username)) = true
  · rw [List.any_eq_true] at hany
    obtain ⟨f0, h0, hk⟩ := hany
    refine ⟨updateFreshman csv f0, ?_, ?_⟩
    · unfold syncedFreshmen
      rw [List.mem_append]
      exact Or.inl (List.mem_map_of_mem _ h0)
    · rw [updateFreshman_key]
      exact beq_iff_eq.mp hk
  · refine ⟨⟨c.rit_username, c.name, c.onfloor⟩, ?_, rfl⟩
    unfold syncedFreshmen
    rw [List.mem_append]
    right
    rw [List.mem_map]
    refine ⟨c, ?_, rfl⟩
    rw [List.mem_filter]
    refine ⟨hc, ?_⟩
    rw [eq_false_of_ne_true hany]
    rfl

theorem synced_rows_agree (csv : List CSVFreshman) (fs : List Freshman)
    (hnd : (csv.map CSVFreshman.rit_username).Nodup) (c : CSVFreshman) (hc : c ∈ csv) :
    ∀ f ∈ syncedFreshmen csv fs, f.rit_username = c.rit_username → f.onfloor = c.onfloor := by
  intro f hf hkey
  unfold syncedFreshmen at hf
  rw [List.mem_append] at hf
  rcases hf with hf | hf
  · rw [List.mem_map] at hf
    obtain ⟨f0, h0, rfl⟩ := hf
    rw [updateFreshman_key] at hkey
    cases hl : csvLookup csv f0.rit_username with
    | some c' =>
      have hl' : csv.find? (fun e => e.rit_username == f0.rit_username) = some c' := hl
      have hc'm : c' ∈ csv := List.mem_of_find?_eq_some hl'
      have hp0 := List.find?_some hl'
      have hp : (c'.rit_username == f0.rit_username) = true := hp0
      have hc'k : c'.rit_username = f0.rit_username := beq_iff_eq.mp hp
      have : c' = c := List.inj_on_of_nodup_map hnd hc'm hc (by rw [hc'k, hkey])
      subst this
      rw [updateFreshman_eq_some csv f0 c' hl]
    | none =>
      exfalso
      rw [csvLookup] at hl
      rw [List.find?_eq_none] at hl
      exact hl c hc (by rw [hkey]; exact beq_self_eq_true _)
  · rw [List.mem_map] at hf
    obtain ⟨c', hc', rfl⟩ := hf
    rw [List.mem_filter] at hc'
    have : c' = c := List.inj_on_of_nodup_map hnd hc'.1 hc hkey
    subst this
    rfl

theorem synced_exists_onfloor_iff (csv : List CSVFreshman) (fs : List Freshman)
    (hnd : (csv.map CSVFreshman.rit_username).Nodup) (u : String) :
    (∃ f ∈ syncedFreshmen csv fs, f.rit_username = u ∧ f.onfloor = true) ↔
    (∃ c ∈ csv, c.rit_username = u ∧ c.onfloor = true) := by
  constructor
  · rintro ⟨f, hf, hfu, hfon⟩
    unfold syncedFreshmen at hf
    rw [List.mem_append] at hf
    rcases hf with hf | hf
    · rw [List.mem_map] at hf
      obtain ⟨f0, h0, rfl⟩ := hf
      rw [updateFreshman_key] at hfu
      cases hl : csvLookup csv f0.rit_username with
      | some c =>
        have hl' : csv.find? (fun e => e.rit_username == f0.rit_username) = some c := hl
        have hp0 := List.find?_some hl'
        have hp : (c.rit_username == f0.rit_username) = true := hp0
        refine ⟨c, List.mem_of_find?_eq_some hl', ?_, ?_⟩
        · rw [beq_iff_eq.mp hp, hfu]
        · rw [updateFreshman_eq_some csv f0 c hl] at hfon
          exact hfon
      | none =>
        exfalso
        rw [updateFreshman_eq_none csv f0 hl] at hfon
        cases hfon
    · rw [List.mem_map] at hf
      obtain ⟨c, hcm, rfl⟩ := hf
      rw [List.mem_filter] at hcm
      exact ⟨c, hcm.1, hfu, hfon⟩
  · rintro ⟨c, hc, hcu, hcon⟩
    obtain ⟨f, hf, hfk⟩ := synced_mem_keys csv fs c hc
    refine ⟨f, hf, by rw [hfk, hcu], ?_⟩
    rw [synced_rows_agree csv fs hnd c hc f hf hfk]
    exact hcon

theorem onfloorIn_true_exists (fs : List Freshman) (u : String)
    (h : onfloorIn fs u = true) : ∃ f ∈ fs, f.rit_username = u ∧ f.onfloor = true := by
  unfold onfloorIn at h
  cases hl : fs.find? (fun f => f.rit_username == u) with
  | none => rw [hl] at h; cases h
  | some f =>
    rw [hl] at h
    have hp0 := List.find?_some hl
    have hp : (f.rit_username == u) = true := hp0
    exact ⟨f, List.mem_of_find?_eq_some hl, beq_iff_eq.mp hp, h⟩

theorem onfloorIn_synced_of_mem (csv : List CSVFreshman) (fs : List Freshman)
    (hnd : (csv.map CSVFreshman.rit_username).Nodup) (c : CSVFreshman) (hc : c ∈ csv)
    (hon : c.onfloor = true) :
    onfloorIn (syncedFreshmen csv fs) c.rit_username = true := by
  obtain ⟨f0, hf0, hf0k⟩ := synced_mem_keys csv fs c hc
  unfold onfloorIn
  cases hl : (syncedFreshmen csv fs).find? (fun f => f.rit_username == c.rit_username) with
  | none =>
    exfalso
    rw [List.find?_eq_none] at hl
    exact hl f0 hf0 (beq_iff_eq.mpr hf0k)
  | some f =>
    rw [← hon]
    have hp0 := List.find?_some hl
    have hp : (f.rit_username == c.rit_username) = true := hp0
    exact synced_rows_agree csv fs hnd c hc f (List.mem_of_find?_eq_some hl)
      (beq_iff_eq.mp hp)

/-! ## C3: the FreshSignature set after roster sync -/

theorem filter_key_filter_ne2 {α} (key : α → Nat) (b : α → Bool) (l : List α)
    (pid qid : Nat) (h : qid ≠ pid) :
    (l.filter (fun s => !(key s == qid && b s))).filter (fun s => key s == pid) =
      l.filter (fun s => key s == pid) := by
  rw [List.filter_filter]
  apply List.filter_congr
  intro a _
  by_cases hk : key a = pid
  · have h1 : (key a == pid) = true := beq_iff_eq.mpr hk
    have h2 : (key a == qid) = false := by
      rw [beq_eq_false_iff_ne, hk]
      exact fun hq => h hq.symm
    rw [h1, h2]
    rfl
  · have h1 : (key a == pid) = false := beq_eq_false_iff_ne.mpr hk
    rw [h1]
    rfl

theorem filter_map_mk_ne (pid qid : Nat) (hne : qid ≠ pid) (cs : List CSVFreshman) :
    ((cs.map (fun c => ({ packet_id := qid
                          freshman_username := c.rit_username
                          signed := false } : FreshSignature))).filter
      (fun s => s.packet_id == pid)) = [] := by
  rw [List.filter_eq_nil_iff]
  intro s hs hc
  rw [List.mem_map] at hs
  obtain ⟨c, _, rfl⟩ := hs
  exact hne (beq_iff_eq.mp hc)

theorem filter_map_mk_self (pid : Nat) (cs : List CSVFreshman) :
    ((cs.map (fun c => ({ packet_id := pid
                          freshman_username := c.rit_username
                          signed := false } : FreshSignature))).filter
      (fun s => s.packet_id == pid)) =
    cs.map (fun c => ({ packet_id := pid
                        freshman_username := c.rit_username
                        signed := false } : FreshSignature)) := by
  rw [List.filter_eq_self]
  intro s hs
  rw [List.mem_map] at hs
  obtain ⟨c, _, rfl⟩ := hs
  exact beq_self_eq_true pid

theorem freshStep_preserve (csv : List CSVFreshman) (fs1 : List Freshman)
    (sigs : List FreshSignature) (pid : Nat) (q : Packet) (hne : q.id ≠ pid) :
    (freshStep csv fs1 sigs q).filter (fun s => s.packet_id == pid) =
      sigs.filter (fun s => s.packet_id == pid) := by
  unfold freshStep
  rw [List.filter_append,
    filter_key_filter_ne2 FreshSignature.packet_id
      (fun s => !onfloorIn fs1 s.freshman_username) sigs pid q.id hne,
    filter_map_mk_ne pid q.id hne, List.append_nil]

theorem freshStep_hit (csv : List CSVFreshman) (fs1 : List Freshman) (p : Packet)
    (sigs : List FreshSignature) :
    (freshStep csv fs1 sigs p).filter (fun s => s.packet_id == p.id) =
      freshPacketRows csv fs1 p (sigs.filter (fun s => s.packet_id == p.id)) := by
  unfold freshStep freshPacketRows
  rw [List.filter_append]
  have hA : (sigs.filter
        (fun s => !(s.packet_id == p.id && !onfloorIn fs1 s.freshman_username))).filter
      (fun s => s.packet_id == p.id) =
      (sigs.filter (fun s => s.packet_id == p.id)).filter
        (fun s => onfloorIn fs1 s.freshman_username) := by
    rw [List.filter_filter, List.filter_filter]
    apply List.filter_congr
    intro a _
    cases hk : (a.packet_id == p.id) <;> cases ho : onfloorIn fs1 a.freshman_username <;>
      simp [hk, ho]
  rw [hA, filter_map_mk_self p.id]

theorem sync_freshmen_rows (now : Nat) (rows : List CSVRow) (db : DB) (p : Packet)
    (hp : p ∈ db.packets) (hopen : now < p.endTime)
    (hnd : (db.packets.map Packet.id).Nodup) :
    (sync_freshmen now rows db).fresh_signatures.filter (fun s => s.packet_id == p.id) =
      freshPacketRows (parse_csv rows) (syncedFreshmen (parse_csv rows) db.freshmen) p
        (db.fresh_signatures.filter (fun s => s.packet_id == p.id)) := by
  have hpf : p ∈ db.packets.filter (fun q => decide (now < q.endTime)) := by
    rw [List.mem_filter]
    exact ⟨hp, by simpa using hopen⟩
  have hndf := nodup_ids_filter db.packets (fun q => decide (now < q.endTime)) hnd
  obtain ⟨l1, l2, hsplit, hl1, hl2⟩ := split_of_nodup_ids _ p hpf hndf
  show ((db.packets.filter (fun q => decide (now < q.endTime))).foldl
      (freshStep (parse_csv rows) (syncedFreshmen (parse_csv rows) db.freshmen))
      db.fresh_signatures).filter (fun s => s.packet_id == p.id) = _
  rw [hsplit]
  exact foldl_proj_eq (fun l => l.filter (fun s => s.packet_id == p.id))
    (freshStep (parse_csv rows) (syncedFreshmen (parse_csv rows) db.freshmen))
    (freshPacketRows (parse_csv rows) (syncedFreshmen (parse_csv rows) db.freshmen) p)
    p l1 l2 db.fresh_signatures
    (fun s q hq => freshStep_preserve _ _ s p.id q (hl1 q hq))
    (fun s q hq => freshStep_preserve _ _ s p.id q (hl2 q hq))
    (fun s => freshStep_hit _ _ p s)

/-- C3: after one `sync-freshmen` run, an open packet's `FreshSignature`
signer set is exactly the set of freshmen who are on-floor in the updated
`Freshman` table, minus the packet's owner.  (The hypothesis `hself` is the
store invariant that a packet never carries its owner's own fresh signature,
which every creation path of the code maintains.) -/
theorem C3_sync_freshmen_fresh_set (now : Nat) (rows : List CSVRow) (db : DB) (p : Packet)
    (hp : p ∈ db.packets) (hopen : now < p.endTime)
    (hnd : (db.packets.map Packet.id).Nodup)
    (hself : ∀ s ∈ db.fresh_signatures, s.packet_id = p.id →
      s.freshman_username ≠ p.freshman_username)
    (u : String) :
    (∃ s ∈ (sync_freshmen now rows db).fresh_signatures,
      s.packet_id = p.id ∧ s.freshman_username = u) ↔
    ((∃ f ∈ (sync_freshmen now rows db).freshmen, f.rit_username = u ∧ f.onfloor = true) ∧
      u ≠ p.freshman_username) := by
  have hrows := sync_freshmen_rows now rows db p hp hopen hnd
  have hkeys := parse_csv_keys_nodup rows
  constructor
  · rintro ⟨s, hs, hpid, hsu⟩
    have hsf : s ∈ (sync_freshmen now rows db).fresh_signatures.filter
        (fun x => x.packet_id == p.id) := List.mem_filter.mpr ⟨hs, beq_iff_eq.mpr hpid⟩
    rw [hrows] at hsf
    unfold freshPacketRows at hsf
    rw [List.mem_append] at hsf
    rcases hsf with hsf | hsf
    · rw [List.mem_filter] at hsf
      have honf : onfloorIn (syncedFreshmen (parse_csv rows) db.freshmen) u = true := by
        rw [← hsu]
        exact hsf.2
      obtain ⟨f, hf, hfu, hfon⟩ := onfloorIn_true_exists _ u honf
      have hdb := List.mem_filter.mp hsf.1
      refine ⟨⟨f, hf, hfu, hfon⟩, ?_⟩
      intro hcontra
      exact hself s hdb.1 (beq_iff_eq.mp hdb.2) (by rw [hsu, hcontra])
    · rw [List.mem_map] at hsf
      obtain ⟨c, hcf, rfl⟩ := hsf
      rw [List.mem_filter] at hcf
      have hcond := hcf.2
      simp only [Bool.and_eq_true] at hcond
      have hcu : c.rit_username = u := hsu
      refine ⟨(synced_exists_onfloor_iff _ db.freshmen hkeys u).mpr
        ⟨c, hcf.1, hcu, hcond.1.2⟩, ?_⟩
      intro hcontra
      have h3 := hcond.2
      rw [hcu, hcontra, beq_self_eq_true] at h3
      cases h3
  · rintro ⟨⟨f, hf, hfu, hfon⟩, hne⟩
    have hex : ∃ c ∈ parse_csv rows, c.rit_username = u ∧ c.onfloor = true :=
      (synced_exists_onfloor_iff _ db.freshmen hkeys u).mp ⟨f, hf, hfu, hfon⟩
    obtain ⟨c, hc, hcu, hcon⟩ := hex
    by_cases hcur : ((((db.fresh_signatures.filter (fun s => s.packet_id == p.id)).filter
        (fun s => onfloorIn (syncedFreshmen (parse_csv rows) db.freshmen)
          s.freshman_username)).map
        (fun s => s.freshman_username)).any (fun v => v == c.rit_username)) = true
    · rw [List.any_eq_true] at hcur
      obtain ⟨v, hv, hveq⟩ := hcur
      rw [List.mem_map] at hv
      obtain ⟨s, hsk, rfl⟩ := hv
      have hveq' : (s.freshman_username == c.rit_username) = true := hveq
      have hsres : s ∈ (sync_freshmen now rows db).fresh_signatures.filter
          (fun x => x.packet_id == p.id) := by
        rw [hrows]
        unfold freshPacketRows
        rw [List.mem_append]
        exact Or.inl hsk
      have hsf := List.mem_filter.mp hsres
      refine ⟨s, hsf.1, beq_iff_eq.mp hsf.2, ?_⟩
      rw [beq_iff_eq.mp hveq', hcu]
    · have hcur' := eq_false_of_ne_true hcur
      have hmem : ({ packet_id := p.id
                     freshman_username := c.rit_username
                     signed := false } : FreshSignature) ∈
          (sync_freshmen now rows db).fresh_signatures.filter
            (fun x => x.packet_id == p.id) := by
        rw [hrows]
        unfold freshPacketRows
        rw [List.mem_append]
        right
        rw [List.mem_map]
        refine ⟨c, ?_, rfl⟩
        rw [List.mem_filter]
        refine ⟨hc, ?_⟩
        have hocc : (c.rit_username == p.freshman_username) = false := by
          rw [beq_eq_false_iff_ne, hcu]
          exact hne
        rw [hcur', hcon, hocc]
        rfl
      have hsf := List.mem_filter.mp hmem
      exact ⟨_, hsf.1, beq_iff_eq.mp hsf.2, hcu⟩

theorem C3_witness :
    (Packet.mk 1 "a" 0 100) ∈
      (DB.mk [⟨"a", "A", true⟩, ⟨"b", "B", true⟩] [⟨1, "a", 0, 100⟩] [] [] []).packets ∧
    (20 : Nat) < (Packet.mk 1 "a" 0 100).endTime ∧
    ((∃ s ∈ (sync_freshmen 20 [⟨"A", "TRUE", "x", "a"⟩, ⟨"B", "TRUE", "y", "b"⟩]
        (DB.mk [⟨"a", "A", true⟩, ⟨"b", "B", true⟩] [⟨1, "a", 0, 100⟩] [] [] [])).fresh_signatures,
      s.packet_id = (Packet.mk 1 "a" 0 100).id ∧ s.freshman_username = "b") ↔
     ((∃ f ∈ (sync_freshmen 20 [⟨"A", "TRUE", "x", "a"⟩, ⟨"B", "TRUE", "y", "b"⟩]
        (DB.mk [⟨"a", "A", true⟩, ⟨"b", "B", true⟩] [⟨1, "a", 0, 100⟩] [] [] [])).freshmen,
        f.rit_username = "b" ∧ f.onfloor = true) ∧
      "b" ≠ (Packet.mk 1 "a" 0 100).freshman_username)) :=
  ⟨by decide, by decide,
    C3_sync_freshmen_fresh_set 20 [⟨"A", "TRUE", "x", "a"⟩, ⟨"B", "TRUE", "y", "b"⟩]
      (DB.mk [⟨"a", "A", true⟩, ⟨"b", "B", true⟩] [⟨1, "a", 0, 100⟩] [] [] [])
      (Packet.mk 1 "a" 0 100) (by decide) (by decide) (by decide) (by decide) "b"⟩

/-! ## C4: roster sync is idempotent -/

theorem syncedFreshmen_idem (csv : List CSVFreshman) (fs : List Freshman)
    (hnd : (csv.map CSVFreshman.rit_username).Nodup) :
    syncedFreshmen csv (syncedFreshmen csv fs) = syncedFreshmen csv fs := by
  have h2 : csv.filter (fun c => !(syncedFreshmen csv fs).any
      (fun f => f.rit_username == c.rit_username)) = [] := by
    rw [List.filter_eq_nil_iff]
    intro c hc hcond
    obtain ⟨f, hf, hfk⟩ := synced_mem_keys csv fs c hc
    have hany : (syncedFreshmen csv fs).any (fun f => f.rit_username == c.rit_username) =
        true := List.any_eq_true.mpr ⟨f, hf, beq_iff_eq.mpr hfk⟩
    rw [hany] at hcond
    cases hcond
  show (syncedFreshmen csv fs).map (updateFreshman csv) ++
      (csv.filter (fun c => !(syncedFreshmen csv fs).any
        (fun f => f.rit_username == c.rit_username))).map
      (fun c => ⟨c.rit_username, c.name, c.onfloor⟩) = syncedFreshmen csv fs
  rw [h2, List.map_nil, List.append_nil]
  apply map_eq_self_of
  intro f hf
  unfold syncedFreshmen at hf
  rw [List.mem_append] at hf
  rcases hf with hf | hf
  · rw [List.mem_map] at hf
    obtain ⟨f0, _, rfl⟩ := hf
    exact updateFreshman_idem csv f0
  · rw [List.mem_map] at hf
    obtain ⟨c, hcf, rfl⟩ := hf
    rw [List.mem_filter] at hcf
    have hl : csvLookup csv (Freshman.mk c.rit_username c.name c.onfloor).rit_username =
        some c := csvLookup_self csv hnd c hcf.1
    rw [updateFreshman_eq_some csv _ c hl]

theorem freshStep_id (csv : List CSVFreshman) (fs1 : List Freshman)
    (sigs : List FreshSignature) (q : Packet)
    (ha : ∀ s ∈ sigs, s.packet_id = q.id → onfloorIn fs1 s.freshman_username = true)
    (hb : ∀ c ∈ csv, c.onfloor = true → c.rit_username ≠ q.freshman_username →
      ∃ s ∈ sigs, s.packet_id = q.id ∧ s.freshman_username = c.rit_username) :
    freshStep csv fs1 sigs q = sigs := by
  unfold freshStep
  have hkept : sigs.filter (fun s => !(s.packet_id == q.id &&
      !onfloorIn fs1 s.freshman_username)) = sigs := by
    rw [List.filter_eq_self]
    intro s hs
    by_cases hpid : s.packet_id = q.id
    · rw [ha s hs hpid, beq_iff_eq.mpr hpid]
      rfl
    · rw [beq_eq_false_iff_ne.mpr hpid]
      rfl
  rw [hkept]
  show sigs ++ (csv.filter (fun c =>
      !(((sigs.filter (fun s => s.packet_id == q.id)).map
        (fun s => s.freshman_username)).any (fun v => v == c.rit_username)) &&
      c.onfloor && !(c.rit_username == q.freshman_username))).map
      (fun c => ({ packet_id := q.id
                   freshman_username := c.rit_username
                   signed := false } : FreshSignature)) = sigs
  have hadds : csv.filter (fun c =>
      !(((sigs.filter (fun s => s.packet_id == q.id)).map
        (fun s => s.freshman_username)).any (fun v => v == c.rit_username)) &&
      c.onfloor && !(c.rit_username == q.freshman_username)) = [] := by
    rw [List.filter_eq_nil_iff]
    intro c hc hcond
    simp only [Bool.and_eq_true] at hcond
    obtain ⟨⟨h1, h2⟩, h3⟩ := hcond
    have hne : c.rit_username ≠ q.freshman_username := by
      intro hq
      rw [beq_iff_eq.mpr hq] at h3
      cases h3
    obtain ⟨s, hs, hspid, hsu⟩ := hb c hc h2 hne
    have hmem : s.freshman_username ∈ (sigs.filter (fun s => s.packet_id == q.id)).map
        (fun s => s.freshman_username) :=
      List.mem_map_of_mem _ (List.mem_filter.mpr ⟨hs, beq_iff_eq.mpr hspid⟩)
    have hany : (((sigs.filter (fun s => s.packet_id == q.id)).map
        (fun s => s.freshman_username)).any (fun v => v == c.rit_username)) = true :=
      List.any_eq_true.mpr ⟨s.freshman_username, hmem, beq_iff_eq.mpr hsu⟩
    rw [hany] at h1
    cases h1
  rw [hadds, List.map_nil, List.append_nil]

theorem freshStep_pa_preserve (csv : List CSVFreshman) (fs1 : List Freshman)
    (sigs : List FreshSignature) (q r : Packet)
    (hon : ∀ c ∈ csv, c.onfloor = true → onfloorIn fs1 c.rit_username = true)
    (hPa : ∀ s ∈ sigs, s.packet_id = q.id → onfloorIn fs1 s.freshman_username = true) :
    ∀ s ∈ freshStep csv fs1 sigs r, s.packet_id = q.id →
      onfloorIn fs1 s.freshman_username = true := by
  intro s hs hpid
  unfold freshStep at hs
  rw [List.mem_append] at hs
  rcases hs with hs | hs
  · exact hPa s (List.mem_filter.mp hs).1 hpid
  · rw [List.mem_map] at hs
    obtain ⟨c, hcf, rfl⟩ := hs
    rw [List.mem_filter] at hcf
    have hcond := hcf.2
    simp only [Bool.and_eq_true] at hcond
    exact hon c hcf.1 hcond.1.2

theorem freshStep_pb_preserve (csv : List CSVFreshman) (fs1 : List Freshman)
    (sigs : List FreshSignature) (q r : Packet)
    (hon : ∀ c ∈ csv, c.onfloor = true → onfloorIn fs1 c.rit_username = true)
    (hPb : ∀ c ∈ csv, c.onfloor = true → c.rit_username ≠ q.freshman_username →
      ∃ s ∈ sigs, s.packet_id = q.id ∧ s.freshman_username = c.rit_username) :
    ∀ c ∈ csv, c.onfloor = true → c.rit_username ≠ q.freshman_username →
      ∃ s ∈ freshStep csv fs1 sigs r, s.packet_id = q.id ∧
        s.freshman_username = c.rit_username := by
  intro c hc hcon hcne
  obtain ⟨s, hs, hspid, hsu⟩ := hPb c hc hcon hcne
  refine ⟨s, ?_, hspid, hsu⟩
  unfold freshStep
  rw [List.mem_append]
  left
  rw [List.mem_filter]
  refine ⟨hs, ?_⟩
  by_cases hpid : s.packet_id = r.id
  · have ho : onfloorIn fs1 s.freshman_username = true := by
      rw [hsu]
      exact hon c hc hcon
    rw [ho, beq_iff_eq.mpr hpid]
    rfl
  · rw [beq_eq_false_iff_ne.mpr hpid]
    rfl

theorem freshStep_establish_pa (csv : List CSVFreshman) (fs1 : List Freshman)
    (sigs : List FreshSignature) (q : Packet)
    (hon : ∀ c ∈ csv, c.onfloor = true → onfloorIn fs1 c.rit_username = true) :
    ∀ s ∈ freshStep csv fs1 sigs q, s.packet_id = q.id →
      onfloorIn fs1 s.freshman_username = true := by
  intro s hs hpid
  unfold freshStep at hs
  rw [List.mem_append] at hs
  rcases hs with hs | hs
  · rw [List.mem_filter] at hs
    have h2 := hs.2
    by_cases ho : onfloorIn fs1 s.freshman_username = true
    · exact ho
    · exfalso
      have ho' : onfloorIn fs1 s.freshman_username = false := eq_false_of_ne_true ho
      rw [beq_iff_eq.mpr hpid, ho'] at h2
      cases h2
  · rw [List.mem_map] at hs
    obtain ⟨c, hcf, rfl⟩ := hs
    rw [List.mem_filter] at hcf
    have hcond := hcf.2
    simp only [Bool.and_eq_true] at hcond
    exact hon c hcf.1 hcond.1.2

theorem freshStep_establish_pb (csv : List CSVFreshman) (fs1 : List Freshman)
    (sigs : List FreshSignature) (q : Packet) :
    ∀ c ∈ csv, c.onfloor = true → c.rit_username ≠ q.freshman_username →
      ∃ s ∈ freshStep csv fs1 sigs q, s.packet_id = q.id ∧
        s.freshman_username = c.rit_username := by
  intro c hc hcon hcne
  by_cases hcur : ((((sigs.filter (fun s => !(s.packet_id == q.id &&
      !onfloorIn fs1 s.freshman_username))).filter (fun s => s.packet_id == q.id)).map
      (fun s => s.freshman_username)).any (fun v => v == c.rit_username)) = true
  · rw [List.any_eq_true] at hcur
    obtain ⟨v, hv, hveq⟩ := hcur
    rw [List.mem_map] at hv
    obtain ⟨s, hsk, rfl⟩ := hv
    have hveq' : (s.freshman_username == c.rit_username) = true := hveq
    rw [List.mem_filter] at hsk
    refine ⟨s, ?_, beq_iff_eq.mp hsk.2, beq_iff_eq.mp hveq'⟩
    unfold freshStep
    rw [List.mem_append]
    exact Or.inl hsk.1
  · have hcur' := eq_false_of_ne_true hcur
    refine ⟨⟨q.id, c.rit_username, false⟩, ?_, rfl, rfl⟩
    unfold freshStep
    rw [List.mem_append]
    right
    rw [List.mem_map]
    refine ⟨c, ?_, rfl⟩
    rw [List.mem_filter]
    refine ⟨hc, ?_⟩
    have hocc : (c.rit_username == q.freshman_username) = false :=
      beq_eq_false_iff_ne.mpr hcne
    rw [hcur', hcon, hocc]
    rfl

theorem foldl_freshStep_keep (csv : List CSVFreshman) (fs1 : List Freshman) (q : Packet)
    (hon : ∀ c ∈ csv, c.onfloor = true → onfloorIn fs1 c.rit_username = true)
    (l : List Packet) :
    ∀ sigs : List FreshSignature,
    ((∀ s ∈ sigs, s.packet_id = q.id → onfloorIn fs1 s.freshman_username = true) ∧
     (∀ c ∈ csv, c.onfloor = true → c.rit_username ≠ q.freshman_username →
       ∃ s ∈ sigs, s.packet_id = q.id ∧ s.freshman_username = c.rit_username)) →
    ((∀ s ∈ l.foldl (freshStep csv fs1) sigs, s.packet_id = q.id →
        onfloorIn fs1 s.freshman_username = true) ∧
     (∀ c ∈ csv, c.onfloor = true → c.rit_username ≠ q.freshman_username →
       ∃ s ∈ l.foldl (freshStep csv fs1) sigs, s.packet_id = q.id ∧
         s.freshman_username = c.rit_username)) := by
  induction l with
  | nil => intro sigs h; exact h
  | cons r l ih =>
    intro sigs h
    rw [List.foldl_cons]
    exact ih (freshStep csv fs1 sigs r)
      ⟨freshStep_pa_preserve csv fs1 sigs q r hon h.1,
       freshStep_pb_preserve csv fs1 sigs q r hon h.2⟩

theorem foldl_freshStep_inv (csv : List CSVFreshman) (fs1 : List Freshman)
    (hon : ∀ c ∈ csv, c.onfloor = true → onfloorIn fs1 c.rit_username = true)
    (l : List Packet) :
    ∀ (sigs : List FreshSignature) (q : Packet), q ∈ l →
    ((∀ s ∈ l.foldl (freshStep csv fs1) sigs, s.packet_id = q.id →
        onfloorIn fs1 s.freshman_username = true) ∧
     (∀ c ∈ csv, c.onfloor = true → c.rit_username ≠ q.freshman_username →
       ∃ s ∈ l.foldl (freshStep csv fs1) sigs, s.packet_id = q.id ∧
         s.freshman_username = c.rit_username)) := by
  induction l with
  | nil => intro sigs q hq; cases hq
  | cons r l ih =>
    intro sigs q hq
    rw [List.foldl_cons]
    rcases List.mem_cons.mp hq with rfl | hq'
    · exact foldl_freshStep_keep csv fs1 q hon l (freshStep csv fs1 sigs q)
        ⟨freshStep_establish_pa csv fs1 sigs q hon, freshStep_establish_pb csv fs1 sigs q⟩
    · exact ih (freshStep csv fs1 sigs r) q hq'

theorem foldl_id_of {σ : Type} (step : σ → Packet → σ) (l : List Packet) (s : σ)
    (h : ∀ q ∈ l, step s q = s) : l.foldl step s = s := by
  induction l with
  | nil => rfl
  | cons a l ih =>
    rw [List.foldl_cons, h a (List.mem_cons_self _ _)]
    exact ih (fun q hq => h q (List.mem_cons_of_mem _ hq))

/-- C4: `sync-freshmen` is idempotent on any starting store: a second run
with the same roster file leaves the whole store, in particular the
`Freshman` and `FreshSignature` tables, exactly as the first run left it. -/
theorem C4_sync_freshmen_idempotent (now : Nat) (rows : List CSVRow) (db : DB) :
    sync_freshmen now rows (sync_freshmen now rows db) = sync_freshmen now rows db := by
  have hkeys := parse_csv_keys_nodup rows
  have hidem := syncedFreshmen_idem (parse_csv rows) db.freshmen hkeys
  have hon : ∀ c ∈ parse_csv rows, c.onfloor = true →
      onfloorIn (syncedFreshmen (parse_csv rows) db.freshmen) c.rit_username = true :=
    fun c hc hcon => onfloorIn_synced_of_mem _ db.freshmen hkeys c hc hcon
  have hfr : (sync_freshmen now rows db).freshmen =
      syncedFreshmen (parse_csv rows) db.freshmen := rfl
  have hpk : (sync_freshmen now rows db).packets = db.packets := rfl
  show ({ sync_freshmen now rows db with
      freshmen := syncedFreshmen (parse_csv rows) (sync_freshmen now rows db).freshmen
      fresh_signatures := ((sync_freshmen now rows db).packets.filter
          (fun q => decide (now < q.endTime))).foldl
        (freshStep (parse_csv rows)
          (syncedFreshmen (parse_csv rows) (sync_freshmen now rows db).freshmen))
        (sync_freshmen now rows db).fresh_signatures } : DB) = sync_freshmen now rows db
  rw [hfr, hidem, hpk]
  have hfold : ((db.packets.filter (fun q => decide (now < q.endTime))).foldl
      (freshStep (parse_csv rows) (syncedFreshmen (parse_csv rows) db.freshmen))
      (sync_freshmen now rows db).fresh_signatures) =
      (sync_freshmen now rows db).fresh_signatures := by
    apply foldl_id_of
    intro q hq
    have hinv := foldl_freshStep_inv (parse_csv rows)
      (syncedFreshmen (parse_csv rows) db.freshmen) hon
      (db.packets.filter (fun q => decide (now < q.endTime))) db.fresh_signatures q hq
    exact freshStep_id _ _ _ q hinv.1 hinv.2
  rw [hfold]
  rfl

end PacketSpec
